import Mathlib

/-!
Verification development for the nl2sql repository.

The definitions below are a shallow embedding, translated from the
TypeScript/JavaScript sources:
  * IR data model          — src/src/ir/types.ts
  * SQL generator          — src/unnamed/part_010 (generateSQL and helpers)
  * basic optimizer        — src/src/optimizer/optimizer.ts (optimizeIR)
  * advanced optimizer     — src/unnamed/part_010 (AdvancedQueryOptimizer etc.)
  * heuristic IR builder   — src/src/file-processing/simple-processor.ts
  * entity recognizer      — src/dist/nlp/entity/entity-recognizer.js

JavaScript numbers are modelled as ℚ (costs, confidences) and ℤ/ℕ where the
source only ever holds integers.  JavaScript `undefined`/optional fields are
modelled with `Option`.  Fallible code (code that can throw) returns `Except`.
-/

deriving instance DecidableEq for Except

namespace NL2SQL

/-- Runtime JS error values: `new Error(msg)` and implicit TypeErrors. -/
inductive JsError
  | error (message : String)
  | typeError (message : String)
deriving DecidableEq, Repr

/-- JS string truthiness for `Option String` valued expressions
(`undefined` and the empty string are falsy). -/
def jsTruthy : Option String → Bool
  | none => false
  | some s => !(s == "")

/-- JS `a || b` on possibly-undefined strings. -/
def jsOrStr (a b : Option String) : Option String :=
  if jsTruthy a then a else b

/-- JS `Array.prototype.join(sep)`. -/
def jsJoin (sep : String) : List String → String
  | [] => ""
  | [x] => x
  | x :: xs => x ++ sep ++ jsJoin sep xs

/-- JS `String.prototype.toUpperCase` (ASCII inputs), implemented over the
character list so that proofs can evaluate it. -/
def jsToUpper (s : String) : String := String.mk (s.data.map Char.toUpper)

/-- SQL dialects (src/src/ir/types.ts, `SqlDialect`). -/
inductive SqlDialect
  | sqlite
  | postgres
  | mysql
deriving DecidableEq, Repr

/-- src/src/ir/types.ts, `ColumnRef`.  The optional SQL alias is `Option`. -/
structure ColumnRef where
  table : String
  column : String
  aliasN : Option String := none
deriving DecidableEq, Repr

/-- A JS literal value (the `unknown` payloads of conditions). -/
inductive JsValue
  | str (s : String)
  | num (n : Int)
  | boolVal (b : Bool)
  | nullVal
deriving DecidableEq, Repr

/-- The left-hand side of a Condition.  types.ts declares `ColumnRef | { value }`;
the heuristic builder additionally smuggles in `{ expr }` objects via a cast,
so that shape is included as `exprF`. -/
inductive CondLhs
  | col (c : ColumnRef)
  | val (v : JsValue)
  | exprF (e : String)
deriving DecidableEq, Repr

/-- The right-hand side shapes of a Condition (src/src/ir/types.ts line 12).
`exprInterval` is the `{ expr?; intervalDays? }` portable-fragment shape. -/
inductive CondRhs
  | col (c : ColumnRef)
  | val (v : JsValue)
  | values (vs : List JsValue)
  | range (lo hi : JsValue)
  | nullMark
  | exprInterval (expr : Option String) (intervalDays : Option Nat)
deriving DecidableEq, Repr

/-- src/src/ir/types.ts, `Condition`.  The operator is kept as its source
string (`"="`, `">="`, `"like"`, ...). -/
structure Condition where
  lhs : CondLhs
  op : String
  rhs : CondRhs
deriving DecidableEq, Repr

/-- src/src/ir/types.ts, `JoinSpec`.  `conditions` is the dynamic
`(join as any).conditions` annotation the advanced optimizer's predicate
pushdown appends to; it does not exist in the declared interface and the SQL
generator never reads it. -/
structure JoinSpec where
  type : String
  left : ColumnRef
  right : ColumnRef
  conditions : List Condition := []
deriving DecidableEq, Repr

/-- src/src/ir/types.ts, `OrderBySpec`. -/
structure OrderBySpec where
  expr : ColumnRef
  direction : Option String := none
deriving DecidableEq, Repr

/-- The expression of an AggregateSpec: a column reference or a raw SQL
expression string (types.ts line 28). -/
inductive AggExpr
  | colE (c : ColumnRef)
  | exprE (e : String)
deriving DecidableEq, Repr

/-- src/src/ir/types.ts, `AggregateSpec`. -/
structure AggregateSpec where
  func : String
  expr : AggExpr
  aliasN : Option String := none
deriving DecidableEq, Repr

/-- One projected column: `ColumnRef | AggregateSpec`.  The source
discriminates with `'func' in c`, which is exactly this sum. -/
inductive SelectCol
  | colC (c : ColumnRef)
  | aggC (a : AggregateSpec)
deriving DecidableEq, Repr

/-- src/src/ir/types.ts, `SelectQueryIR`.  `from` and `where` are Lean
keywords, so the fields are named `fromT` and `whereC`.  `prunedColumns` is
the dynamic `(ir as any).prunedColumns` annotation written by the advanced
optimizer's column pruning; it is absent (empty) on IRs built elsewhere. -/
structure SelectQueryIR where
  fromT : String
  columns : List SelectCol
  joins : Option (List JoinSpec) := none
  whereC : Option (List Condition) := none
  groupBy : Option (List ColumnRef) := none
  having : Option (List Condition) := none
  orderBy : Option (List OrderBySpec) := none
  limit : Option Int := none
  prunedColumns : List String := []
deriving DecidableEq, Repr

/-! The SQL generator, src/unnamed/part_010 lines 1-73. -/

/-- Double every occurrence of `ch` in `s` (the `.replace(/x/g, "xx")` idiom
used by the identifier quoter). -/
def dupChar (ch : Char) (s : String) : String :=
  String.mk (s.data.foldr (fun c acc => if c = ch then c :: c :: acc else c :: acc) [])

/-- Identifier quoting, `q` (part_010 lines 2-6): backtick-doubling for
mysql, double-quote-doubling otherwise; `*` never quoted. -/
def q (ident : String) (dialect : SqlDialect) : String :=
  if ident = "*" then "*"
  else if dialect = SqlDialect.mysql then "`" ++ dupChar '`' ident ++ "`"
  else "\"" ++ dupChar '"' ident ++ "\""

/-- `JSON.stringify` on the JS values appearing in conditions.  Strings are
quoted with backslash/quote escaping (other JSON escapes do not occur in the
values this repository builds). -/
def jsonOfValue : JsValue → String
  | .str s =>
      "\"" ++ String.mk (s.data.foldr (fun c acc =>
        if c = '"' then '\\' :: '"' :: acc
        else if c = '\\' then '\\' :: '\\' :: acc
        else c :: acc) []) ++ "\""
  | .num n => toString n
  | .boolVal true => "true"
  | .boolVal false => "false"
  | .nullVal => "null"

/-- `emitColumn` (part_010 lines 8-21).  A JS falsy alias (absent or the
empty string) falls through to the implicit `table.column` alias. -/
def emitColumn (c : SelectCol) (dialect : SqlDialect) : String :=
  match c with
  | .aggC a =>
      let expr := match a.expr with
        | .exprE e => e
        | .colE r => q r.table dialect ++ "." ++ q r.column dialect
      let sel := jsToUpper a.func ++ "(" ++ expr ++ ")"
      if jsTruthy a.aliasN then sel ++ " AS " ++ q (a.aliasN.getD "") dialect else sel
  | .colC col =>
      let sel := q col.table dialect ++ "." ++ q col.column dialect
      if jsTruthy col.aliasN then sel ++ " AS " ++ q (col.aliasN.getD "") dialect
      else if col.column ≠ "*" then
        sel ++ " AS " ++ q (col.table ++ "." ++ col.column) dialect
      else sel

/-- `formatInterval` (part_010 lines 23-27). -/
def formatInterval (days : Nat) (dialect : SqlDialect) : String :=
  if dialect = SqlDialect.postgres then
    "CURRENT_DATE - INTERVAL '" ++ toString days ++ " days'"
  else if dialect = SqlDialect.mysql then
    "DATE_SUB(CURDATE(), INTERVAL " ++ toString days ++ " DAY)"
  else
    "DATE('now', '-" ++ toString days ++ " days')"

/-- One rendered join clause (the `.map` body of part_010 lines 32-39). -/
def renderJoinItem (fromT : String) (dialect : SqlDialect) (j : JoinSpec) : String :=
  let joinTable :=
    if j.left.table = fromT then j.right.table
    else if j.right.table = fromT then j.left.table
    else j.right.table
  let onLeft := q j.left.table dialect ++ "." ++ q j.left.column dialect
  let onRight := q j.right.table dialect ++ "." ++ q j.right.column dialect
  jsToUpper j.type ++ " JOIN " ++ q joinTable dialect ++ " ON " ++ onLeft ++ " = " ++ onRight

/-- One rendered where condition (the `.map` body of part_010 lines 41-51).
The source sniffs rhs properties in the order intervalDays, expr, null,
values, range, value; a non-Column lhs makes `w.lhs.table` undefined, so
`q(undefined)` throws a TypeError. -/
def renderCond (dialect : SqlDialect) (w : Condition) : Except JsError String :=
  match w.lhs with
  | .col lc =>
      let lhs := q lc.table dialect ++ "." ++ q lc.column dialect
      match w.rhs with
      | .exprInterval _ (some days) =>
          .ok (lhs ++ " " ++ w.op ++ " " ++ formatInterval days dialect)
      | .exprInterval (some e) none =>
          if e ≠ "" then .ok (lhs ++ " " ++ w.op ++ " " ++ e)
          else .ok (lhs ++ " " ++ w.op ++ " NULL")
      | .exprInterval none none => .ok (lhs ++ " " ++ w.op ++ " NULL")
      | .nullMark => .ok (lhs ++ " " ++ w.op ++ " NULL")
      | .values vs =>
          .ok (lhs ++ " " ++ w.op ++ " (" ++ jsJoin ", " (vs.map jsonOfValue) ++ ")")
      | .range lo hi =>
          .ok (lhs ++ " BETWEEN " ++ jsonOfValue lo ++ " AND " ++ jsonOfValue hi)
      | .val v => .ok (lhs ++ " " ++ w.op ++ " " ++ jsonOfValue v)
      | .col _ => .ok (lhs ++ " " ++ w.op ++ " NULL")
  | _ => .error (.typeError "Cannot read properties of undefined (reading replace)")

/-- One rendered order-by item (the `.map` body of part_010 lines 58-60).
The JS builds `"col dir".trim()`, which equals `col` when the direction is
absent or empty (the quoted column text never ends in whitespace). -/
def renderOrderItem (dialect : SqlDialect) (o : OrderBySpec) : String :=
  let base := q o.expr.table dialect ++ "." ++ q o.expr.column dialect
  match o.direction with
  | some d => if d = "" then base else base ++ " " ++ jsToUpper d
  | none => base

/-- The LIMIT part of the generated text (part_010 line 69): emitted only
when `ir.limit` is truthy, and `0` is falsy in JS. -/
def limitClause : Option Int → String
  | some n => if n ≠ 0 then "LIMIT " ++ toString n else ""
  | none => ""

/-- `generateSQL` (part_010 lines 29-73).  Faithful points: the `having`
field of the IR is never read; empty clause strings are dropped by
`.filter(Boolean)`; a where condition whose lhs is not a ColumnRef throws. -/
def generateSQL (ir : SelectQueryIR) (dialect : SqlDialect) : Except JsError String := do
  let select := jsJoin ", " (ir.columns.map (emitColumn · dialect))
  let fromS := "FROM " ++ q ir.fromT dialect
  let joins := jsJoin " " ((ir.joins.getD []).map (renderJoinItem ir.fromT dialect))
  let whereParts ← (ir.whereC.getD []).mapM (renderCond dialect)
  let whereS := jsJoin " AND " whereParts
  let groupS := jsJoin ", "
    ((ir.groupBy.getD []).map (fun g => q g.table dialect ++ "." ++ q g.column dialect))
  let orderS := jsJoin ", " ((ir.orderBy.getD []).map (renderOrderItem dialect))
  let parts := [
    "SELECT " ++ select,
    fromS,
    joins,
    if whereS ≠ "" then "WHERE " ++ whereS else "",
    if groupS ≠ "" then "GROUP BY " ++ groupS else "",
    if orderS ≠ "" then "ORDER BY " ++ orderS else "",
    limitClause ir.limit ].filter (fun s => s ≠ "")
  return jsJoin "\n" parts

/-! The basic optimizer, src/src/optimizer/optimizer.ts (`optimizeIR`). -/

/-- The `sel.some(...)` test of optimizeIR line 12: a plain (non-aggregate)
projected column with the same table and column. -/
def containsPlainCol (sel : List SelectCol) (g : ColumnRef) : Bool :=
  sel.any fun c =>
    match c with
    | .colC c => c.table == g.table && c.column == g.column
    | .aggC _ => false

/-- The column-insertion loop of optimizeIR lines 11-14: each groupBy column
not yet projected as a plain column is unshifted (prepended) onto the
selection; the `exists` check runs against the evolving selection. -/
def insertGroupCols (sel : List SelectCol) : List ColumnRef → List SelectCol
  | [] => sel
  | g :: gs =>
      insertGroupCols (if containsPlainCol sel g then sel else .colC g :: sel) gs

/-- The seen-set filter idiom (`const seen = new Set(); list.filter(...)`)
used by optimizeIR lines 19-25 and simplifyConditions: keep the first
occurrence of each key. -/
def dedupByKey {α κ : Type} [DecidableEq κ] (key : α → κ) : List α → List κ → List α
  | [], _ => []
  | x :: xs, seen =>
      if key x ∈ seen then dedupByKey key xs seen
      else x :: dedupByKey key xs (key x :: seen)

/-- First-occurrence deduplication with an empty seen set. -/
def dedupFirst {α κ : Type} [DecidableEq κ] (key : α → κ) (l : List α) : List α :=
  dedupByKey key l []

/-- The string key `table.column` used to de-duplicate groupBy entries. -/
def groupKey (g : ColumnRef) : String := g.table ++ "." ++ g.column

/-- `optimizeIR` (src/src/optimizer/optimizer.ts lines 6-28): ensure GROUP BY
columns appear among the projected columns, then de-duplicate groupBy by its
`table.column` key.  Every other field is spread through unchanged. -/
def optimizeIR (ir : SelectQueryIR) : SelectQueryIR :=
  let cols :=
    match ir.groupBy with
    | some gb => if gb ≠ [] then insertGroupCols ir.columns gb else ir.columns
    | none => ir.columns
  { ir with columns := cols, groupBy := ir.groupBy.map (dedupFirst groupKey) }

/-! The advanced optimizer, src/unnamed/part_010 lines 74-1105.  The
`cloneIR` JSON round-trips are identity on the IR's value; where the source
compares a pass's result against its input by object reference (`!==`), each
pass below also returns a Bool that is true exactly when the JS function
returns a freshly allocated object. -/

/-- `OptimizationType` (part_010 lines 122-133). -/
inductive OptimizationType
  | PREDICATE_PUSHDOWN
  | JOIN_REORDERING
  | INDEX_SELECTION
  | SUBQUERY_UNNESTING
  | COMMON_SUBEXPRESSION
  | PARTITION_PRUNING
  | MATERIALIZED_VIEW
  | QUERY_REWRITE
  | COLUMN_PRUNING
  | CONSTANT_FOLDING
deriving DecidableEq, Repr

/-- `CostModel.scanCost` (part_010 848-856): rows = 10000, rowSize = 100 and
pageSize = 8192 are hardcoded, so every table costs ceil(1000000/8192) = 123
pages at 1.0 cost units per page. -/
def scanCost (_table : String) : ℚ := 123

/-- `CostModel.filterCost` (part_010 858-861). -/
def filterCost (conditions : List Condition) : ℚ := conditions.length * (1 / 100)

/-- `CostModel.joinCost` (part_010 863-868): rightRows is hardcoded 10000. -/
def joinCost (_join : JoinSpec) (leftRows : ℚ) : ℚ := leftRows * 10000 * (1 / 10000)

/-- `CostModel.aggregateCost` (part_010 870-873). -/
def aggregateCost (groupBy : List ColumnRef) (rows : ℚ) : ℚ :=
  rows * (1 / 1000) * groupBy.length

/-- `CostModel.estimate` (part_010 817-846).  `sortCost(1000)` is
`1000 * Math.log2(1000) * 0.0001`, an irrational constant; it enters as the
parameter `sortC`, which the theorems quantify over, so they hold for the
actual floating-point value too.  Presence checks are JS truthiness on the
optional arrays: a present-but-empty array still adds its term (zero for
where/joins/groupBy, `sortC` for orderBy). -/
def estimate (sortC : ℚ) (ir : SelectQueryIR) : ℚ :=
  scanCost ir.fromT
  + (match ir.whereC with | some w => filterCost w | none => 0)
  + (match ir.joins with
     | some js => (js.map (fun j => joinCost j 1000)).sum
     | none => 0)
  + (match ir.groupBy with | some gb => aggregateCost gb 1000 | none => 0)
  + (match ir.orderBy with | some _ => sortC | none => 0)

/-- `QueryRewriter.simplifyConditions` (part_010 903-917): the seen-set
filter keyed by `JSON.stringify(condition)`, i.e. first-occurrence
deduplication by structural equality. -/
def simplifyConditions (conditions : List Condition) : List Condition :=
  dedupFirst id conditions

/-- `QueryRewriter.simplify` (part_010 882-891).  The JS clones the IR and
returns the clone, so the result is always a fresh object: the Bool records
that `simplified !== optimized` always holds. -/
def simplify (ir : SelectQueryIR) : SelectQueryIR × Bool :=
  ({ ir with whereC := ir.whereC.map simplifyConditions }, true)

/-- The `'table' in condition.lhs` structural probe. -/
def lhsHasTable : CondLhs → Bool
  | .col _ => true
  | _ => false

/-- `involvesAggregate` (part_010 776-779): hardcoded false. -/
def involvesAggregate (_c : Condition) : Bool := false

/-- `dependsOnJoin` (part_010 781-790).  `!ir.joins` is JS truthiness of the
array: a present-but-empty joins array still counts as having joins. -/
def dependsOnJoin (c : Condition) (ir : SelectQueryIR) : Bool :=
  match ir.joins, c.lhs with
  | none, _ => false
  | some _, .col lc =>
      (match c.rhs with
       | .col rc => lc.table != rc.table
       | _ => false)
  | some _, _ => false

/-- `canPushDown` (part_010 669-680). -/
def canPushDown (c : Condition) (ir : SelectQueryIR) : Bool :=
  lhsHasTable c.lhs && !involvesAggregate c && !dependsOnJoin c ir

/-- `isRelevantToJoin` (part_010 682-687). -/
def isRelevantToJoin (c : Condition) (j : JoinSpec) : Bool :=
  match c.lhs with
  | .col lc => lc.table == j.left.table || lc.table == j.right.table
  | _ => false

/-- `pushPredicates` (part_010 293-332): pushable conditions are removed
from where and appended to the `conditions` annotation of each join they
mention.  The JS returns the input object itself exactly when where is
absent or empty, else a clone; the Bool records freshness. -/
def pushPredicates (ir : SelectQueryIR) : SelectQueryIR × Bool :=
  match ir.whereC with
  | none => (ir, false)
  | some w =>
      if w = [] then (ir, false)
      else
        let pushed := w.filter (fun c => canPushDown c ir)
        let remaining := w.filter (fun c => !canPushDown c ir)
        if pushed ≠ [] then
          let joins := ir.joins.map (List.map (fun j =>
            let relevant := pushed.filter (fun c => isRelevantToJoin c j)
            if relevant ≠ [] then { j with conditions := j.conditions ++ relevant }
            else j))
          ({ ir with joins := joins, whereC := some remaining }, true)
        else (ir, true)

/-- The `${col.table}.${col.column}` template applied to a projected column:
an AggregateSpec has neither property, so JS interpolates "undefined". -/
def selColKey : SelectCol → String
  | .colC c => c.table ++ "." ++ c.column
  | .aggC _ => "undefined.undefined"

/-- `pruneColumns` (part_010 334-384).  The needed-column Set is modelled as
first-occurrence deduplication of the insertion sequence (JS Set iteration
is insertion-ordered).  The source's orderBy loop reads `order.column.table`,
but OrderBySpec's field is named `expr`, so `order.column` is undefined and
a non-empty orderBy throws a TypeError.  On success the JS always returns a
clone (the Bool). -/
def pruneColumns (ir : SelectQueryIR) : Except JsError (SelectQueryIR × Bool) :=
  if ir.orderBy.getD [] ≠ [] then
    .error (.typeError "Cannot read properties of undefined (reading table)")
  else
    let needed :=
      ir.columns.map selColKey
      ++ (ir.whereC.getD []).foldr (fun c acc =>
            (match c.lhs with
             | .col lc => [lc.table ++ "." ++ lc.column]
             | _ => [])
            ++ (match c.rhs with
                | .col rc => [rc.table ++ "." ++ rc.column]
                | _ => [])
            ++ acc) []
      ++ (ir.joins.getD []).foldr (fun j acc =>
            (j.left.table ++ "." ++ j.left.column)
              :: (j.right.table ++ "." ++ j.right.column) :: acc) []
      ++ (ir.groupBy.getD []).map groupKey
    .ok ({ ir with prunedColumns := dedupFirst id needed }, true)

/-- `selectIndexes` (part_010 386-451).  The IndexSelector's lookups all
return `[]` (part_010 996-1009), so `indexes.length > 0` never holds and
the selected-index Map stays empty; the pass only clones (Bool true).  Its
orderBy branch reads `ir.orderBy[0].column.table` on a nonempty orderBy,
which throws the same TypeError as pruneColumns. -/
def selectIndexes (ir : SelectQueryIR) : Except JsError (SelectQueryIR × Bool) :=
  if ir.orderBy.getD [] ≠ [] then
    .error (.typeError "Cannot read properties of undefined (reading table)")
  else .ok (ir, true)

/-- `hasSubqueries` (part_010 689-692): `(ir as any).subqueries` does not
exist on a SelectQueryIR, so this is false on every IR this pipeline
builds. -/
def hasSubqueries (_ir : SelectQueryIR) : Bool := false

/-- The `[...joins.slice(0, i), ...joins.slice(i + 1)]` selections of
generateJoinOrders: every (picked element, rest) pair, in position order. -/
def picks : List JoinSpec → List (JoinSpec × List JoinSpec)
  | [] => []
  | x :: xs => (x, xs) :: (picks xs).map (fun p => (p.1, x :: p.2))

/-- `JoinOptimizer.generateJoinOrders` (part_010 969-986): all permutations
of the join list, generated recursively by picking each element in turn;
`[joins]` for length at most one. -/
def generateJoinOrders (l : List JoinSpec) : List (List JoinSpec) :=
  if l.length ≤ 1 then [l]
  else
    (picks l).attach.flatMap (fun p =>
      (generateJoinOrders p.1.2).map (fun sub => p.1.1 :: sub))
termination_by l.length
decreasing_by
  have key : ∀ (m : List JoinSpec) (p : JoinSpec × List JoinSpec),
      p ∈ picks m → p.2.length + 1 = m.length := by
    intro m
    induction m with
    | nil => intro p hp; simp [picks] at hp
    | cons x xs ih =>
        intro p hp
        simp only [picks, List.mem_cons, List.mem_map] at hp
        rcases hp with h | ⟨r, hr, rfl⟩
        · subst h; simp
        · simpa using ih r hr
  have hp := p.2
  have := key l p.1 hp
  omega

/-- One step of the best-order loop of `JoinOptimizer.optimize` (part_010
934-946): the accumulator holds (bestOrder, bestCost), bestCost `none`
standing for the initial Infinity, which every finite cost beats. -/
def joinFoldStep (sortC : ℚ) (ir : SelectQueryIR)
    (acc : List JoinSpec × Option ℚ) (order : List JoinSpec) :
    List JoinSpec × Option ℚ :=
  let cost := estimate sortC { ir with joins := some order }
  match acc.2 with
  | none => (order, some cost)
  | some b => if cost < b then (order, some cost) else acc

/-- `JoinOptimizer.optimize` (part_010 927-952): enumerate every join order
and keep the strictly cheapest.  The JS returns the input object itself iff
joins are absent or at most one (the Bool records freshness). -/
def joinOptimizerOptimize (sortC : ℚ) (ir : SelectQueryIR) : SelectQueryIR × Bool :=
  match ir.joins with
  | none => (ir, false)
  | some js =>
      if js.length ≤ 1 then (ir, false)
      else
        let orders := generateJoinOrders js
        let best := (orders.foldl (joinFoldStep sortC ir) (js, none)).1
        ({ ir with joins := some best }, true)

/-- The claim-relevant outputs of `AdvancedQueryOptimizer.optimize`
(part_010 82-89).  The source also builds a plan tree, alternatives and
recommendations; the plan and recommendations are derived read-only data the
claims do not reference, but the alternatives stage can throw (see
`optimize`), so its throw condition is modelled there.  `optimizations`
keeps the recorded pass types in order (the description/impact/costReduction
payloads carry no claim-relevant information). -/
structure OptimizationResult where
  optimizedIR : SelectQueryIR
  estimatedCost : ℚ
  optimizations : List OptimizationType
deriving DecidableEq, Repr

/-- `AdvancedQueryOptimizer.optimize` (part_010 175-291), the fixed pass
sequence.  A pass is recorded in `optimizations` when its JS result object
differs by reference from its input (`!==`), which is the Bool each pass
returns here.  The per-instance result cache (part_010 180-183, 287-288) is
not modelled: a hit returns a previously computed result for a structurally
identical key, so it never changes the observable outputs.  Subquery
unnesting (pass 6) is unreachable because `hasSubqueries` is false on every
SelectQueryIR.  After the passes, `generatePlan(optimized)` (part_010 266,
453-566) is safe: pass 5 always stored `selectedIndexes` as a genuine Map
(part_010 448), so `hasSelectedIndex` (701-703) can call `.has` on it.  But
`generateAlternatives` (part_010 568-613) then JSON-round-trips the IR
(alternative 1 via `JoinOptimizer.generateAlternativeOrders`, part_010
954-967, when `joins.length > 1`; alternative 2 via `cloneIR` when
`joins.length > 0`), which turns that Map into a plain `{}`; the clone's
`generatePlan` immediately evaluates `selectedIndexes?.has(table)` on it —
`{}` is non-nullish and has no `.has` — so a TypeError is thrown for every
IR whose post-pass joins array has at least one element, and optimize never
returns on such inputs. -/
def optimize (sortC : ℚ) (ir : SelectQueryIR) : Except JsError OptimizationResult := do
  let (s, fresh1) := simplify ir
  let opts1 := if fresh1 then [OptimizationType.CONSTANT_FOLDING] else []
  let (p, fresh2) := pushPredicates s
  let opts2 := opts1 ++ if fresh2 then [OptimizationType.PREDICATE_PUSHDOWN] else []
  let (pr, fresh3) ← pruneColumns p
  let opts3 := opts2 ++ if fresh3 then [OptimizationType.COLUMN_PRUNING] else []
  let (jr, fresh4) :=
    match pr.joins with
    | some js => if js.length > 1 then joinOptimizerOptimize sortC pr else (pr, false)
    | none => (pr, false)
  let opts4 := opts3 ++ if fresh4 then [OptimizationType.JOIN_REORDERING] else []
  let (si, fresh5) ← selectIndexes jr
  let opts5 := opts4 ++ if fresh5 then [OptimizationType.INDEX_SELECTION] else []
  match si.joins with
  | some (_ :: _) =>
      .error (.typeError "ir.selectedIndexes?.has is not a function")
  | _ =>
      return { optimizedIR := si, estimatedCost := estimate sortC si, optimizations := opts5 }

/-! The heuristic IR builder, src/src/file-processing/simple-processor.ts
lines 695-921, with the schema shapes of src/unnamed/part_009
(`SchemaInfo`/`TableInfo`). -/

/-- part_009, a column of `TableInfo`. -/
structure ColumnInfo where
  name : String
  type : Option String := none
  pk : Bool := false
deriving DecidableEq, Repr

/-- part_009, `TableInfo`. -/
structure TableInfo where
  name : String
  columns : List ColumnInfo
deriving DecidableEq, Repr

/-- part_009, `SchemaInfo`. -/
structure SchemaInfo where
  tables : List TableInfo
deriving DecidableEq, Repr

/-- `ParseOptions` (simple-processor line 738). -/
structure ParseOptions where
  defaultTable : Option String := none
deriving DecidableEq, Repr

/-- JS `String.prototype.toLowerCase` (the repository's identifiers and
prompts are ASCII, where `Char.toLower` agrees with JS). -/
def jsToLower (s : String) : String := String.mk (s.data.map Char.toLower)

/-- Substring search on character lists: does `hay` contain `pat`? -/
def listContains (pat : List Char) : List Char → Bool
  | [] => pat.isPrefixOf []
  | c :: rest => pat.isPrefixOf (c :: rest) || listContains pat rest

/-- JS `String.prototype.includes`. -/
def jsIncludes (s pat : String) : Bool := listContains pat.data s.data

/-- JS `String.prototype.replace` with a single-character string pattern:
replace the first occurrence only. -/
def replaceFirstChar (pat repl : Char) : List Char → List Char
  | [] => []
  | c :: rest => if c = pat then repl :: rest else c :: replaceFirstChar pat repl rest

/-- The JS `\s` whitespace class (its ASCII members; prompts are ASCII). -/
def isJsWs (c : Char) : Bool :=
  c = ' ' || c = '\t' || c = '\n' || c = '\r' || c = '\x0b' || c = '\x0c'

/-- One `a\s+b` regex alternative matched at the head of `s`: the literal
`a`, one or more whitespace characters, then the literal `b`.  All the `b`
literals used below start with a letter, so the greedy `\s+` consumes
exactly the maximal whitespace run and no backtracking arises. -/
def headLitWsLit (a b : List Char) (s : List Char) : Bool :=
  a.isPrefixOf s &&
    (let rest := s.drop a.length
     let wsn := (rest.takeWhile isJsWs).length
     decide (1 ≤ wsn) && b.isPrefixOf (rest.drop wsn))

/-- `regex.test` for an alternation of `a\s+b` patterns: true when some
alternative matches at some position of `s`. -/
def testLitWsLit (pats : List (String × String)) : List Char → Bool
  | [] => pats.any (fun p => headLitWsLit p.1.data p.2.data [])
  | c :: t =>
      pats.any (fun p => headLitWsLit p.1.data p.2.data (c :: t)) || testLitWsLit pats t

/-- `/(total|sum|revenue|sales)/.test(text)` (simple-processor line 779). -/
def testSumKeywords (s : String) : Bool :=
  jsIncludes s "total" || jsIncludes s "sum" || jsIncludes s "revenue" || jsIncludes s "sales"

/-- `/(avg|average|mean).*total/.test(text)` (line 793): some alternative
matches at some position with "total" occurring after it. -/
def testAvgThenTotal : List Char → Bool
  | [] => false
  | c :: t =>
      (["avg", "average", "mean"].any (fun a =>
        a.data.isPrefixOf (c :: t) && listContains "total".data ((c :: t).drop a.data.length)))
      || testAvgThenTotal t

/-- `/avg|average|mean/.test(text)` (line 800). -/
def testAvgKeywords (s : String) : Bool :=
  jsIncludes s "avg" || jsIncludes s "average" || jsIncludes s "mean"

/-- `/in\s+june|june/.test(text)` (line 895). -/
def testJune (s : String) : Bool :=
  testLitWsLit [("in", "june")] s.data || jsIncludes s "june"

/-- `/completed\s+orders|completed/.test(text)` (line 908). -/
def testCompleted (s : String) : Bool :=
  testLitWsLit [("completed", "orders")] s.data || jsIncludes s "completed"

/-- `/last\s+(\d+)\s+days?/` matched at the head of `s`: returns the
captured digit run.  The adjacent character classes (`\s`, `\d`, the letter
of "day") are disjoint, so the greedy quantifiers are exact maximal munch. -/
def headLastDays (s : List Char) : Option (List Char) :=
  if "last".data.isPrefixOf s then
    let r1 := s.drop 4
    let ws1 := (r1.takeWhile isJsWs).length
    if 1 ≤ ws1 then
      let r2 := r1.drop ws1
      let ds := r2.takeWhile Char.isDigit
      if 1 ≤ ds.length then
        let r3 := r2.drop ds.length
        let ws2 := (r3.takeWhile isJsWs).length
        if 1 ≤ ws2 then
          if "day".data.isPrefixOf (r3.drop ws2) then some ds else none
        else none
      else none
    else none
  else none

/-- The left-to-right scan of `text.match(/last\s+(\d+)\s+days?/)`: the
first match's captured digits. -/
def scanLastDays : List Char → Option (List Char)
  | [] => none
  | c :: t =>
      match headLastDays (c :: t) with
      | some ds => some ds
      | none => scanLastDays t

/-- `text.match(/last\s+(\d+)\s+days?/)`, keeping the captured digit run. -/
def lastDaysMatch (s : String) : Option (List Char) := scanLastDays s.data

/-- JS `Number()` on a non-empty digit string. -/
def digitsToNat (ds : List Char) : Nat :=
  ds.foldl (fun n c => 10 * n + (c.toNat - 48)) 0

/-- `singularize` (simple-processor lines 697-701). -/
def singularize (word : String) : String :=
  if "ies".data.isSuffixOf word.data then
    String.mk (word.data.take (word.data.length - 3)) ++ "y"
  else if "s".data.isSuffixOf word.data then
    String.mk (word.data.take (word.data.length - 1))
  else word

/-- `findTableByName` (lines 703-711). -/
def findTableByName (schema : SchemaInfo) (name : String) : Option String :=
  let lname := jsToLower name
  match schema.tables.find? (fun t => jsToLower t.name == lname) with
  | some t => some t.name
  | none =>
      let alt := singularize lname
      (schema.tables.find? (fun t =>
        jsToLower t.name == alt || jsToLower t.name == alt ++ "s")).map (·.name)

/-- `columnExists` (lines 713-717). -/
def columnExists (schema : SchemaInfo) (table column : String) : Bool :=
  match schema.tables.find? (fun t => t.name == table) with
  | none => false
  | some t => t.columns.any (fun c => jsToLower c.name == jsToLower column)

/-- `likelyDateColumn` (lines 719-728): the first candidate name that a
column of the table matches case-insensitively. -/
def likelyDateColumn (schema : SchemaInfo) (table : String) : Option String :=
  match schema.tables.find? (fun t => t.name == table) with
  | none => none
  | some t =>
      ["created_at", "order_date", "date", "timestamp", "createdat"].findSome?
        (fun cand => (t.columns.find? (fun x => jsToLower x.name == cand)).map (·.name))

/-- `hasOrderItems` (lines 730-732). -/
def hasOrderItems (schema : SchemaInfo) : Bool :=
  schema.tables.any (fun t => jsIncludes (jsToLower t.name) "order_items")

/-- `ref` (lines 734-736). -/
def ref (table column : String) : ColumnRef := { table := table, column := column }

/-- The entity-hint pass of base inference (lines 752-758): for each hint in
order, when the text contains the hint or its underscored form, rebind base
to the looked-up table when the lookup succeeds (`?? base`). -/
def inferBaseHints (text : String) (schema : SchemaInfo) : Option String :=
  ["orders", "order items", "order_items", "customers", "users", "products",
   "invoices", "restaurants", "merchants"].foldl
    (fun base hint =>
      let name := String.mk (replaceFirstChar ' ' '_' hint.data)
      if jsIncludes text hint || jsIncludes text name then
        match findTableByName schema name with
        | some t => some t
        | none => base
      else base) none

/-- The table-name pass of base inference (lines 761-766): the first schema
table whose lowered name occurs in the text wins outright. -/
def inferBaseTables (text : String) (schema : SchemaInfo) (base : Option String) :
    Option String :=
  match schema.tables.find? (fun t => jsIncludes text (jsToLower t.name)) with
  | some t => some t.name
  | none => base

/-- Base inference including the default fallback (lines 751-770):
`base = opts.defaultTable || schema.tables[0]?.name` when the first two
passes leave base falsy. -/
def inferBase (text : String) (schema : SchemaInfo) (opts : ParseOptions) : Option String :=
  let b := inferBaseTables text schema (inferBaseHints text schema)
  if jsTruthy b then b
  else jsOrStr opts.defaultTable ((schema.tables.head?).map (·.name))

/-- The aggregation-intent chain (lines 777-802). -/
def aggIntent (text : String) (schema : SchemaInfo) (base : String) : Option AggregateSpec :=
  if testSumKeywords text then
    if hasOrderItems schema && jsTruthy (findTableByName schema "order_items") then
      let oi := (findTableByName schema "order_items").getD ""
      some { func := "sum", expr := .exprE (oi ++ ".quantity * " ++ oi ++ ".unit_price"),
             aliasN := some "total_revenue" }
    else if columnExists schema base "total" then
      some { func := "sum", expr := .colE (ref base "total"), aliasN := some "total_amount" }
    else if columnExists schema base "amount" then
      some { func := "sum", expr := .colE (ref base "amount"), aliasN := some "total_amount" }
    else if columnExists schema base "price" then
      some { func := "sum", expr := .colE (ref base "price"), aliasN := some "total_price" }
    else none
  else if jsIncludes text "count" then
    some { func := "count", expr := .colE (ref base "*"), aliasN := some "count" }
  else if testAvgThenTotal text.data then
    if columnExists schema base "total" then
      some { func := "avg", expr := .colE (ref base "total"), aliasN := some "avg_total" }
    else if columnExists schema base "amount" then
      some { func := "avg", expr := .colE (ref base "amount"), aliasN := some "avg_amount" }
    else none
  else if testAvgKeywords text then
    if columnExists schema base "amount" then
      some { func := "avg", expr := .colE (ref base "amount"), aliasN := some "avg_amount" }
    else none
  else none

/-- The grouping-intent chain (lines 804-837). -/
def groupByIntent (text : String) (schema : SchemaInfo) (base : String) : List ColumnRef :=
  if testLitWsLit [("per", "customer"), ("by", "customer")] text.data then
    let cust := jsOrStr (findTableByName schema "customers") (findTableByName schema "users")
    if jsTruthy cust then
      let c := cust.getD ""
      if columnExists schema c "name" then [ref c "name"]
      else if columnExists schema c "id" then [ref c "id"]
      else []
    else []
  else if testLitWsLit [("per", "product"), ("by", "product")] text.data then
    match findTableByName schema "products" with
    | some p =>
        if columnExists schema p "name" then [ref p "name"]
        else if columnExists schema p "id" then [ref p "id"]
        else []
    | none => []
  else if testLitWsLit
      [("per", "restaurant"), ("by", "restaurant"), ("each", "restaurant")] text.data then
    (if columnExists schema base "merchant_id" then [ref base "merchant_id"] else [])
    ++ (let m := findTableByName schema "merchants"
        if jsTruthy m && columnExists schema (m.getD "") "name" then
          [ref (m.getD "") "name"]
        else [])
  else if testLitWsLit [("per", "restaurateur"), ("each", "restaurateur")] text.data then
    let m := findTableByName schema "merchants"
    if jsTruthy m && columnExists schema (m.getD "") "parent_merchant_id" then
      [ref (m.getD "") "parent_merchant_id"]
    else []
  else if testLitWsLit
      [("per", "day"), ("by", "day"), ("per", "date"), ("by", "date")] text.data then
    match likelyDateColumn schema base with
    | some dc => if dc != "" then [ref base dc] else []
    | none => []
  else []

/-- An inner join as the builder constructs them. -/
def mkJoin (l r : ColumnRef) : JoinSpec := { type := "inner", left := l, right := r }

/-- The join-insertion section (lines 839-872), which also reassigns the
base table; returns (joins, base). -/
def joinsStage (text : String) (schema : SchemaInfo) (agg : Option AggregateSpec)
    (groupBy : List ColumnRef) (base0 : String) : List JoinSpec × String :=
  let orders := findTableByName schema "orders"
  let orderItems := findTableByName schema "order_items"
  let customers := jsOrStr (findTableByName schema "customers") (findTableByName schema "users")
  let merchants := findTableByName schema "merchants"
  let restaurants := findTableByName schema "restaurants"
  let revenueHit :=
    match agg with
    | some a =>
        (match a.expr with
         | .exprE e => jsIncludes e "order_items"
         | _ => false)
    | none => false
  let (j1, b1) :=
    if revenueHit && jsTruthy orders && jsTruthy orderItems then
      ([mkJoin (ref (orders.getD "") "id") (ref (orderItems.getD "") "order_id")],
       orders.getD "")
    else ([], base0)
  let custHit :=
    groupBy.any (fun g => match customers with | some c => g.table == c | none => false)
  let (j2, b2) :=
    if custHit && jsTruthy customers && jsTruthy orders then
      ([mkJoin (ref (customers.getD "") "id") (ref (orders.getD "") "customer_id")],
       orders.getD "")
    else ([], b1)
  let merchHit :=
    groupBy.any (fun g => match merchants with | some m => g.table == m | none => false)
    || jsIncludes text "restaurant" || jsIncludes text "merchant"
  let (j3, b3) :=
    if merchHit then
      let (ja, bb) :=
        if jsTruthy orders && jsTruthy merchants then
          ([mkJoin (ref (orders.getD "") "merchant_id") (ref (merchants.getD "") "merchant_id")],
           orders.getD "")
        else ([], b2)
      let jb :=
        if jsTruthy restaurants && jsTruthy merchants then
          [mkJoin (ref (restaurants.getD "") "merchant_id")
                  (ref (merchants.getD "") "merchant_id")]
        else []
      (ja ++ jb, bb)
    else ([], b2)
  (j1 ++ j2 ++ j3, b3)

/-- The date-column lookup shared by the last-N-days and month filters
(lines 888 and 896): the base table's date column, else the orders (or
base) table's. -/
def filterDateColumn (schema : SchemaInfo) (base : String) : Option String :=
  jsOrStr (likelyDateColumn schema base)
    (likelyDateColumn schema ((jsOrStr (findTableByName schema "orders") (some base)).getD ""))

/-- Whether a condition's rhs carries an `intervalDays` tag. -/
def hasIntervalDays (c : Condition) : Bool :=
  match c.rhs with
  | .exprInterval _ (some _) => true
  | _ => false

/-- The filter section (lines 882-912): the last-N-days window, the June
month filter, and the completed-status filter, in source order. -/
def whereStage (text : String) (schema : SchemaInfo) (base : String) : List Condition :=
  let wLast :=
    match lastDaysMatch text with
    | some ds =>
        let dc := filterDateColumn schema base
        if jsTruthy dc then
          [{ lhs := .col (ref base (dc.getD "")), op := ">=",
             rhs := .exprInterval
               (some ("DATE('now', '-" ++ String.mk ds ++ " days')"))
               (some (digitsToNat ds)) }]
        else []
    | none => []
  let wJune :=
    if testJune text then
      let dc := filterDateColumn schema base
      if jsTruthy dc then
        let d := dc.getD ""
        let tableRef := if jsIncludes d "." then d else base ++ "." ++ d
        [{ lhs := .exprF ("EXTRACT(MONTH FROM " ++ tableRef ++ ")"), op := "=",
           rhs := .exprInterval (some "6") none }]
      else []
    else []
  let wStatus :=
    if testCompleted text then
      if columnExists schema base "status" then
        [{ lhs := .col (ref base "status"), op := "=",
           rhs := .exprInterval (some "'completed'") none }]
      else []
    else []
  wLast ++ wJune ++ wStatus

/-- `parseIntentToIR` (simple-processor lines 747-921).  Throws the
`new Error('No tables available ...')` of lines 771-775 when no base table
is inferable; otherwise assembles the IR in source order (base, aggregation,
grouping, joins with base reassignment, projected columns, filters). -/
def parseIntentToIR (prompt : String) (schema : SchemaInfo) (opts : ParseOptions) :
    Except JsError SelectQueryIR :=
  let text := jsToLower prompt
  let base3 := inferBase text schema opts
  if jsTruthy base3 then
    let base0 := base3.getD ""
    let agg := aggIntent text schema base0
    let gb := groupByIntent text schema base0
    let (joins, base) := joinsStage text schema agg gb base0
    let columns :=
      gb.map SelectCol.colC ++ (match agg with | some a => [SelectCol.aggC a] | none => [])
    let columns :=
      if columns = [] then [SelectCol.colC { table := base, column := "*" }] else columns
    let whereL := whereStage text schema base
    .ok { fromT := base, columns := columns,
          joins := if joins ≠ [] then some joins else none,
          whereC := if whereL ≠ [] then some whereL else none,
          groupBy := if gb ≠ [] then some gb else none }
  else
    let avail := jsJoin ", " (schema.tables.map (·.name))
    .error (.error ("No tables available to infer from. Available tables: "
      ++ (if avail = "" then "none" else avail) ++ ". Query: \"" ++ prompt ++ "\""))

/-! The entity recognizer, src/dist/nlp/entity/entity-recognizer.js, with the
token shapes of src/dist/nlp/tokenizer/advanced-tokenizer.d.ts. -/

/-- `TokenType` (advanced-tokenizer.d.ts). -/
inductive TokenType
  | SELECT_KEYWORD
  | FROM_KEYWORD
  | WHERE_KEYWORD
  | JOIN_KEYWORD
  | GROUP_KEYWORD
  | ORDER_KEYWORD
  | HAVING_KEYWORD
  | COMPARISON_OP
  | LOGICAL_OP
  | ARITHMETIC_OP
  | TABLE_NAME
  | COLUMN_NAME
  | FUNCTION_NAME
  | ALIAS
  | STRING_LITERAL
  | NUMBER_LITERAL
  | DATE_LITERAL
  | BOOLEAN_LITERAL
  | NULL_LITERAL
  | NOUN
  | VERB
  | ADJECTIVE
  | ADVERB
  | PREPOSITION
  | DETERMINER
  | PRONOUN
  | CONJUNCTION
  | AGGREGATION
  | TEMPORAL
  | QUANTIFIER
  | NEGATION
  | QUESTION
  | PUNCTUATION
  | UNKNOWN
deriving DecidableEq, Repr

/-- `Token` (advanced-tokenizer.d.ts).  The optional token metadata record is
never read by the recognizer and is omitted. -/
structure Token where
  text : String
  type : TokenType
  position : Nat
  length : Nat
  normalized : String
  confidence : ℚ
deriving DecidableEq, Repr

/-- A schema column as the recognizer reads it (name and type). -/
structure RColumn where
  name : String
  type : String
deriving DecidableEq, Repr

/-- A schema table as the recognizer reads it.  `aliasL` is the optional
`table.alias` array consulted by buildSynonymMap. -/
structure RTable where
  name : String
  columns : List RColumn
  aliasL : Option (List String) := none
deriving DecidableEq, Repr

/-- A schema function as the recognizer reads it. -/
structure RFunc where
  name : String
  type : String
deriving DecidableEq, Repr

/-- The schema object of the recognizer (`schema.tables`,
`schema.functions`). -/
structure RSchema where
  tables : List RTable
  functions : List RFunc
deriving DecidableEq, Repr

/-- `EntityType` (entity-recognizer.js lines 6-21). -/
inductive EntityType
  | TABLE
  | COLUMN
  | VALUE
  | FUNCTION
  | OPERATOR
  | CONDITION
  | AGGREGATION
  | TEMPORAL
  | NUMERIC
  | TEXT
  | BOOLEAN
  | NULL
  | UNKNOWN
deriving DecidableEq, Repr

/-- The value of `entity.metadata.table`: the source stores a table name
string in some branches and a whole table object in others. -/
inductive MetaTable
  | str (s : String)
  | tbl (t : RTable)
deriving DecidableEq, Repr

/-- JS truthiness of `entity.metadata?.table`: an object is truthy, a string
is truthy iff non-empty. -/
def metaTableTruthy : Option MetaTable → Bool
  | none => false
  | some (.str s) => !(s == "")
  | some (.tbl _) => true

/-- The entity metadata record, with every key any branch of the recognizer
writes.  `parsedTemporal` marks that `parseTemporal` ran; its Date result
depends on the wall clock and nothing downstream reads it. -/
structure EntityMeta where
  table : Option MetaTable := none
  column : Option RColumn := none
  ambiguous : Bool := false
  possibleTables : List String := []
  pattern : Option String := none
  function : Option RFunc := none
  parsedTemporal : Bool := false
deriving DecidableEq, Repr

/-- `Entity` as the recognizer builds it. -/
structure Entity where
  text : String
  type : EntityType
  subtype : Option String := none
  confidence : ℚ
  position : Nat
  length : Nat
  resolvedName : Option String := none
  metadata : EntityMeta := {}
deriving DecidableEq, Repr

/-- The built-in entries of `buildSynonymMap` (lines 203-222), in insertion
order. -/
def builtinSynonyms : List (String × String) :=
  [("customer", "customer"), ("client", "customer"), ("buyer", "customer"),
   ("purchaser", "customer"), ("product", "product"), ("item", "product"),
   ("good", "product"), ("merchandise", "product"), ("order", "order"),
   ("purchase", "order"), ("transaction", "order"), ("employee", "employee"),
   ("staff", "employee"), ("worker", "employee"), ("personnel", "employee"),
   ("department", "department"), ("dept", "department"),
   ("division", "department"), ("unit", "department")]

/-- All `map.set` calls of buildSynonymMap in order: built-ins, then each
table's declared aliases. -/
def synonymPairs (schema : RSchema) : List (String × String) :=
  builtinSynonyms ++ schema.tables.flatMap (fun t =>
    match t.aliasL with
    | some l => l.map (fun a => (jsToLower a, jsToLower t.name))
    | none => [])

/-- `synonymMap.get`: later `set`s win, so look up from the end. -/
def synonymGet (schema : RSchema) (k : String) : Option String :=
  ((synonymPairs schema).reverse.find? (fun p => p.1 == k)).map (·.2)

/-- The `.replace(/([A-Z])/g, ' $1').toLowerCase().trim()` camel-case
spacing of `matches` (line 124).  Its input is already lower-cased, so this
reduces to a trim, but it is modelled literally. -/
def camelSpaced (targetNorm : String) : String :=
  let spaced := (jsToLower (String.mk (targetNorm.data.flatMap
    (fun c => if c.isUpper then [' ', c] else [c])))).data
  String.mk (((spaced.dropWhile Char.isWhitespace).reverse.dropWhile
    Char.isWhitespace).reverse)

/-- `matches` (entity-recognizer.js lines 110-128). -/
def matchesName (schema : RSchema) (normalized target : String) : Bool :=
  let targetNorm := jsToLower target
  normalized == targetNorm
  || (match synonymGet schema normalized with
      | some s => s == targetNorm
      | none => false)
  || normalized == String.mk (targetNorm.data.map (fun c => if c = '_' then ' ' else c))
  || normalized == camelSpaced targetNorm

/-- `directMatch` (lines 63-109): per table first the table name, then its
columns; after all tables, the functions.  First hit returns. -/
def directMatch (schema : RSchema) (token : Token) : Option Entity :=
  match schema.tables.findSome? (fun table =>
    if matchesName schema token.normalized table.name then
      some { text := token.text, type := .TABLE, confidence := 1,
             position := token.position, length := token.length,
             resolvedName := some table.name,
             metadata := { table := some (.tbl table) } }
    else
      table.columns.findSome? (fun column =>
        if matchesName schema token.normalized column.name then
          some { text := token.text, type := .COLUMN, subtype := some column.type,
                 confidence := 9/10, position := token.position, length := token.length,
                 resolvedName := some column.name,
                 metadata := { table := some (.str table.name), column := some column } }
        else none)) with
  | some e => some e
  | none =>
      schema.functions.findSome? (fun func =>
        if matchesName schema token.normalized func.name then
          some { text := token.text, type := .FUNCTION, subtype := some func.type,
                 confidence := 1, position := token.position, length := token.length,
                 resolvedName := some func.name,
                 metadata := { function := some func } }
        else none)

/-- `levenshteinDistance` (lines 444-466).  The JS fills the standard
dynamic-programming table over string prefixes; this is the same recurrence
read from the string heads (edit distance is invariant under reversal), so
it computes the identical value `dp[m][n]`. -/
def lev : List Char → List Char → Nat
  | [], ys => ys.length
  | x :: xs, [] => (x :: xs).length
  | x :: xs, y :: ys =>
      if x = y then lev xs ys
      else 1 + min (lev xs (y :: ys)) (min (lev (x :: xs) ys) (lev xs ys))
termination_by xs ys => xs.length + ys.length

/-- `calculateSimilarity` (lines 431-443). -/
def calculateSimilarity (str1 str2 : String) : ℚ :=
  let distance := lev str1.data str2.data
  let maxLength := max str1.length str2.length
  if maxLength = 0 then 1
  else
    let similarity := 1 - (distance : ℚ) / (maxLength : ℚ)
    if str1.data.isPrefixOf str2.data || str2.data.isPrefixOf str1.data then
      min (similarity * (12/10)) 1
    else similarity

/-- A candidate of `FuzzyMatcher.match`. -/
structure FuzzyMatch where
  type : EntityType
  resolved : String
  score : ℚ
  metadata : EntityMeta
deriving DecidableEq, Repr

/-- One comparison of the best-candidate loop (`score > bestScore`, strict;
the initial bestScore is 0, so a zero-score candidate never replaces the
initial null). -/
def bestStep (acc : Option FuzzyMatch) (cand : FuzzyMatch) : Option FuzzyMatch :=
  match acc with
  | none => if cand.score > 0 then some cand else none
  | some b => if cand.score > b.score then some cand else some b

/-- `FuzzyMatcher.match` (lines 385-430): tables, then every table's
columns, then functions. -/
def fuzzyBest (schema : RSchema) (text : String) : Option FuzzyMatch :=
  let afterTables := schema.tables.foldl (fun acc table =>
    bestStep acc { type := .TABLE, resolved := table.name,
                   score := calculateSimilarity text (jsToLower table.name),
                   metadata := { table := some (.tbl table) } }) none
  let afterCols := schema.tables.foldl (fun acc table =>
    table.columns.foldl (fun acc column =>
      bestStep acc { type := .COLUMN, resolved := column.name,
                     score := calculateSimilarity text (jsToLower column.name),
                     metadata := { table := some (.str table.name),
                                   column := some column } }) acc) afterTables
  schema.functions.foldl (fun acc func =>
    bestStep acc { type := .FUNCTION, resolved := func.name,
                   score := calculateSimilarity text (jsToLower func.name),
                   metadata := { function := some func } }) afterCols

/-- `createEntity` (lines 303-313). -/
def createEntity (token : Token) (m : FuzzyMatch) : Entity :=
  { text := token.text, type := m.type, confidence := m.score,
    position := token.position, length := token.length,
    resolvedName := some m.resolved, metadata := m.metadata }

/-- The query context of `buildContext` (lines 233-257). -/
structure RecContext where
  tables : List String
  columns : List String
  functions : List String
  hasAggregation : Bool
  hasGroupBy : Bool
  hasJoin : Bool
  hasWhere : Bool
deriving DecidableEq, Repr

/-- `buildContext` (lines 233-257); the Sets are insertion-ordered, i.e.
first-occurrence deduplication in token order. -/
def buildContext (tokens : List Token) : RecContext :=
  { tables := dedupFirst id
      ((tokens.filter (fun t => t.type == .TABLE_NAME)).map (·.normalized)),
    columns := dedupFirst id
      ((tokens.filter (fun t => t.type == .COLUMN_NAME)).map (·.normalized)),
    functions := dedupFirst id
      ((tokens.filter (fun t =>
        t.type == .FUNCTION_NAME || t.type == .AGGREGATION)).map (·.normalized)),
    hasAggregation := tokens.any (fun t => t.type == .AGGREGATION),
    hasGroupBy := tokens.any (fun t => t.type == .GROUP_KEYWORD),
    hasJoin := tokens.any (fun t => t.type == .JOIN_KEYWORD),
    hasWhere := tokens.any (fun t => t.type == .WHERE_KEYWORD) }

/-- `ContextualResolver.findBestTableMatch` (lines 524-539). -/
def findBestTableMatch (schema : RSchema) (text : String) (context : RecContext) :
    Option RTable :=
  match context.tables.findSome? (fun contextTable =>
    schema.tables.find? (fun t => jsToLower t.name == jsToLower contextTable)) with
  | some t => some t
  | none =>
      schema.tables.find? (fun table =>
        jsIncludes (jsToLower table.name) text || jsIncludes text (jsToLower table.name))

/-- `ContextualResolver.findBestColumnMatch` (lines 540-552); its context
parameter is unused in the source body. -/
def findBestColumnMatch (schema : RSchema) (text : String) : Option RColumn :=
  schema.tables.findSome? (fun table =>
    table.columns.find? (fun column =>
      jsToLower column.name == text
      || jsIncludes (jsToLower column.name) text
      || jsIncludes text (jsToLower column.name)))

/-- `ContextualResolver.resolve` (lines 473-523): the from-clause, the
select-clause, then the comparison-left pattern. -/
def contextualResolve (schema : RSchema) (token : Token) (allTokens : List Token)
    (index : Nat) (context : RecContext) : Option Entity :=
  let prev := if index > 0 then allTokens[index - 1]? else none
  let next := allTokens[index + 1]?
  let fromPat : Option Entity :=
    match prev with
    | some p =>
        if p.type == .FROM_KEYWORD && token.type == .NOUN then
          match findBestTableMatch schema token.normalized context with
          | some table =>
              some { text := token.text, type := .TABLE, confidence := 8/10,
                     position := token.position, length := token.length,
                     resolvedName := some table.name,
                     metadata := { table := some (.tbl table),
                                   pattern := some "from_clause" } }
          | none => none
        else none
    | none => none
  match fromPat with
  | some e => some e
  | none =>
      let selPat : Option Entity :=
        match prev with
        | some p =>
            if p.type == .SELECT_KEYWORD && token.type == .NOUN then
              match findBestColumnMatch schema token.normalized with
              | some column =>
                  some { text := token.text, type := .COLUMN, confidence := 7/10,
                         position := token.position, length := token.length,
                         resolvedName := some column.name,
                         metadata := { column := some column,
                                       pattern := some "select_clause" } }
              | none => none
            else none
        | none => none
      match selPat with
      | some e => some e
      | none =>
          match next with
          | some nx =>
              if nx.type == .COMPARISON_OP then
                match findBestColumnMatch schema token.normalized with
                | some column =>
                    some { text := token.text, type := .COLUMN, confidence := 3/4,
                           position := token.position, length := token.length,
                           resolvedName := some column.name,
                           metadata := { column := some column,
                                         pattern := some "comparison_left" } }
                | none => none
              else none
          | none => none

/-- `normalizeAggregation` (lines 314-333). -/
def normalizeAggregation (text : String) : String :=
  match ([("sum", "SUM"), ("total", "SUM"), ("add up", "SUM"), ("count", "COUNT"),
    ("number of", "COUNT"), ("how many", "COUNT"), ("average", "AVG"),
    ("avg", "AVG"), ("mean", "AVG"), ("maximum", "MAX"), ("max", "MAX"),
    ("highest", "MAX"), ("minimum", "MIN"), ("min", "MIN"),
    ("lowest", "MIN")].find? (fun p => p.1 == jsToLower text)) with
  | some p => p.2
  | none => jsToUpper text

/-- `normalizeOperator` (lines 334-357). -/
def normalizeOperator (text : String) : String :=
  match ([("equal to", "="), ("equals", "="), ("is", "="), ("greater than", ">"),
    ("more than", ">"), ("above", ">"), ("less than", "<"), ("fewer than", "<"),
    ("below", "<"), ("not equal", "!="), ("different from", "!="),
    ("between", "BETWEEN"), ("in range", "BETWEEN"), ("like", "LIKE"),
    ("contains", "LIKE"), ("includes", "LIKE"), ("and", "AND"), ("or", "OR"),
    ("not", "NOT")].find? (fun p => p.1 == jsToLower text)) with
  | some p => p.2
  | none => jsToUpper text

/-- `recognizeByType` (lines 129-200). -/
def recognizeByType (token : Token) : Option Entity :=
  match token.type with
  | .STRING_LITERAL =>
      some { text := token.text, type := .TEXT, confidence := 9/10,
             position := token.position, length := token.length,
             resolvedName := some token.normalized }
  | .NUMBER_LITERAL =>
      some { text := token.text, type := .NUMERIC, confidence := 9/10,
             position := token.position, length := token.length,
             resolvedName := some token.normalized }
  | .DATE_LITERAL =>
      some { text := token.text, type := .TEMPORAL, confidence := 9/10,
             position := token.position, length := token.length,
             resolvedName := some token.normalized,
             metadata := { parsedTemporal := true } }
  | .TEMPORAL =>
      some { text := token.text, type := .TEMPORAL, confidence := 9/10,
             position := token.position, length := token.length,
             resolvedName := some token.normalized,
             metadata := { parsedTemporal := true } }
  | .BOOLEAN_LITERAL =>
      some { text := token.text, type := .BOOLEAN, confidence := 1,
             position := token.position, length := token.length,
             resolvedName := some (if token.normalized == "true"
               || token.normalized == "yes" then "true" else "false") }
  | .NULL_LITERAL =>
      some { text := token.text, type := .NULL, confidence := 1,
             position := token.position, length := token.length,
             resolvedName := some "NULL" }
  | .AGGREGATION =>
      some { text := token.text, type := .AGGREGATION, confidence := 9/10,
             position := token.position, length := token.length,
             resolvedName := some (normalizeAggregation token.normalized) }
  | .COMPARISON_OP =>
      some { text := token.text, type := .OPERATOR, confidence := 9/10,
             position := token.position, length := token.length,
             resolvedName := some (normalizeOperator token.normalized) }
  | .LOGICAL_OP =>
      some { text := token.text, type := .OPERATOR, confidence := 9/10,
             position := token.position, length := token.length,
             resolvedName := some (normalizeOperator token.normalized) }
  | _ => none

/-- `recognizeEntity` (lines 46-62): direct match, fuzzy above 0.7,
contextual, then type-based. -/
def recognizeEntity (schema : RSchema) (token : Token) (allTokens : List Token)
    (index : Nat) (context : RecContext) : Option Entity :=
  match directMatch schema token with
  | some e => some e
  | none =>
      let fallback :=
        match contextualResolve schema token allTokens index context with
        | some e => some e
        | none => recognizeByType token
      match fuzzyBest schema token.normalized with
      | some fm => if fm.score > 7/10 then some (createEntity token fm) else fallback
      | none => fallback

/-- `findTablesWithColumn` (lines 290-302). -/
def findTablesWithColumn (schema : RSchema) (columnName : String) : List RTable :=
  let normalized := jsToLower columnName
  schema.tables.filter (fun table =>
    table.columns.any (fun column => matchesName schema normalized column.name))

/-- The per-entity body of `resolveAmbiguities` (lines 258-289). -/
def resolveAmbiguity (schema : RSchema) (context : RecContext) (entity : Entity) : Entity :=
  if entity.type == .COLUMN && !(metaTableTruthy entity.metadata.table) then
    let possibleTables := findTablesWithColumn schema
      ((jsOrStr entity.resolvedName (some entity.text)).getD "")
    match possibleTables with
    | [] => entity
    | [t] =>
        { entity with
          metadata := { entity.metadata with table := some (.str t.name) },
          confidence := min (entity.confidence * (11/10)) 1 }
    | _ :: _ :: _ =>
        match context.tables.find? (fun t =>
          possibleTables.any (fun pt => jsToLower pt.name == jsToLower t)) with
        | some contextTable =>
            { entity with
              metadata := { entity.metadata with table := some (.str contextTable) },
              confidence := min (entity.confidence * (21/20)) 1 }
        | none =>
            { entity with
              confidence := entity.confidence * (7/10),
              metadata :=
                { entity.metadata with
                  ambiguous := true,
                  possibleTables := possibleTables.map (·.name) } }
  else entity

/-- `resolveAmbiguities` (lines 258-289): every entity is processed and
pushed. -/
def resolveAmbiguities (schema : RSchema) (entities : List Entity)
    (context : RecContext) : List Entity :=
  entities.map (resolveAmbiguity schema context)

/-- `recognize` (lines 33-45): per-token recognition, the strict 0.3
confidence filter, then the ambiguity pass. -/
def recognize (schema : RSchema) (tokens : List Token) : List Entity :=
  let context := buildContext tokens
  let entities := tokens.enum.filterMap (fun p =>
    match recognizeEntity schema p.2 tokens p.1 context with
    | some e => if e.confidence > 3/10 then some e else none
    | none => none)
  resolveAmbiguities schema entities context

/-! Helper lemmas. -/

theorem data_append (s t : String) : (s ++ t).data = s.data ++ t.data := rfl

theorem picks_rest_length :
    ∀ (m : List JoinSpec) (p : JoinSpec × List JoinSpec),
      p ∈ picks m → p.2.length + 1 = m.length := by
  intro m
  induction m with
  | nil => intro p hp; simp [picks] at hp
  | cons x xs ih =>
      intro p hp
      simp only [picks, List.mem_cons, List.mem_map] at hp
      rcases hp with h | ⟨r, hr, rfl⟩
      · subst h; simp
      · simpa using ih r hr

theorem picks_length (m : List JoinSpec) : (picks m).length = m.length := by
  induction m with
  | nil => simp [picks]
  | cons x xs ih => simp [picks, ih]

theorem generateJoinOrders_length (l : List JoinSpec) :
    (generateJoinOrders l).length = l.length.factorial := by
  generalize hn : l.length = n
  induction n using Nat.strong_induction_on generalizing l with
  | _ n ih =>
    rw [generateJoinOrders]
    by_cases h : l.length ≤ 1
    · rw [if_pos h]
      have hb : n ≤ 1 := hn ▸ h
      interval_cases n <;> simp
    · simp only [hn] at h
      rw [if_neg (by omega : ¬ l.length ≤ 1)]
      rw [List.length_flatMap]
      have hconst : ∀ p ∈ (picks l).attach,
          ((generateJoinOrders p.1.2).map (fun sub => p.1.1 :: sub)).length
            = (n - 1).factorial := by
        intro p _
        have hlen : p.1.2.length + 1 = l.length := picks_rest_length l p.1 p.2
        rw [List.length_map]
        rw [ih (n - 1) (by omega) p.1.2 (by omega)]
      rw [show (List.length ∘ fun p : {x // x ∈ picks l} =>
            List.map (fun sub => (p.1).1 :: sub) (generateJoinOrders (p.1).2))
          = (fun p : {x // x ∈ picks l} =>
            (List.map (fun sub => (p.1).1 :: sub) (generateJoinOrders (p.1).2)).length)
          from rfl]
      rw [List.map_congr_left hconst]
      simp only [List.map_const', List.sum_replicate, smul_eq_mul]
      rw [List.length_attach, picks_length, hn]
      cases n with
      | zero => omega
      | succ m => simp [Nat.factorial_succ]

theorem generateJoinOrders_mem_length (l : List JoinSpec) :
    ∀ o ∈ generateJoinOrders l, o.length = l.length := by
  generalize hn : l.length = n
  induction n using Nat.strong_induction_on generalizing l with
  | _ n ih =>
    intro o ho
    rw [generateJoinOrders] at ho
    by_cases h : l.length ≤ 1
    · rw [if_pos h] at ho
      simp at ho
      subst ho; exact hn
    · rw [if_neg h] at ho
      simp only [List.mem_flatMap, List.mem_map, List.mem_attach] at ho
      obtain ⟨p, _, sub, hsub, rfl⟩ := ho
      have hlen : p.1.2.length + 1 = l.length := picks_rest_length l p.1 p.2
      have := ih p.1.2.length (by omega) p.1.2 rfl sub hsub
      simp [this, ← hn, ← hlen]

/-! Claim C10: a zero limit is indistinguishable from an absent limit. -/

/-- C10: generateSQL emits the LIMIT clause only when `ir.limit` is truthy,
so for every IR with limit = 0 the generated SQL contains no LIMIT part
(`limitClause` renders the empty string, which `.filter(Boolean)` drops) and
the output is identical to that for the same IR with limit absent. -/
theorem generateSQL_limit_zero_eq_none :
    limitClause (some 0) = "" ∧ limitClause none = "" ∧
    ∀ (ir : SelectQueryIR) (dialect : SqlDialect),
      generateSQL { ir with limit := some 0 } dialect
        = generateSQL { ir with limit := none } dialect := by
  refine ⟨rfl, rfl, ?_⟩
  intro ir dialect
  simp [generateSQL, limitClause]

/-! Claim C1: the generator silently drops `having`. -/

/-- A concrete IR whose `having` list is non-empty. -/
def havingDemoIR : SelectQueryIR :=
  { fromT := "orders",
    columns := [SelectCol.aggC
      { func := "count", expr := .colE (ref "orders" "*"), aliasN := some "cnt" }],
    groupBy := some [ref "orders" "status"],
    having := some [{ lhs := .col (ref "orders" "cnt"), op := ">", rhs := .val (.num 5) }] }

/-- C1 counterexample: on a concrete IR with a non-empty `having` list,
generateSQL raises no error; it returns SQL text that contains no HAVING
clause at all and that is byte-identical to the SQL generated for the same
IR with `having` removed.  The generator silently drops the clause instead
of failing loudly. -/
theorem generateSQL_having_dropped_cex :
    generateSQL havingDemoIR SqlDialect.sqlite
      = Except.ok ("SELECT COUNT(\"orders\".*) AS \"cnt\"\n"
          ++ "FROM \"orders\"\nGROUP BY \"orders\".\"status\"")
    ∧ generateSQL havingDemoIR SqlDialect.sqlite
      = generateSQL { havingDemoIR with having := none } SqlDialect.sqlite := by
  exact ⟨by decide, rfl⟩

/-- C1 amended: generateSQL never reads the `having` field: for every IR and
dialect its result (success or error) is identical to the result for the
same IR with `having` removed, so a non-empty having list is silently
dropped and never raises an error. -/
theorem generateSQL_ignores_having (ir : SelectQueryIR) (dialect : SqlDialect) :
    generateSQL ir dialect = generateSQL { ir with having := none } dialect := by
  simp [generateSQL]

/-! Claim C2: join reordering is exhaustive at every join count. -/

/-- Five concrete joins in a chain. -/
def cexJoins5 : List JoinSpec :=
  [mkJoin (ref "t0" "id") (ref "t1" "fk"),
   mkJoin (ref "t1" "id") (ref "t2" "fk"),
   mkJoin (ref "t2" "id") (ref "t3" "fk"),
   mkJoin (ref "t3" "id") (ref "t4" "fk"),
   mkJoin (ref "t4" "id") (ref "t5" "fk")]

/-- C2 counterexample: at five joins — at the cap the claim asserts (N≈5),
where it requires a greedy non-exhaustive fallback — the candidate list that
`JoinOptimizer.optimize` cost-compares, `generateJoinOrders`, holds all
5! = 120 permutations: the search is exhaustive and no fallback exists. -/
theorem joinReorder_exhaustive_at_five_cex :
    (generateJoinOrders cexJoins5).length = 120
    ∧ Nat.factorial 5 = 120 := by
  constructor
  · rw [generateJoinOrders_length]
    decide
  · decide

/-- C2 amended: the join-reordering step has no cap and no greedy fallback:
for every join list, `JoinOptimizer.optimize` enumerates and cost-compares
exactly the `generateJoinOrders` candidates, whose number is the factorial
of the join count. -/
theorem generateJoinOrders_exhaustive (joins : List JoinSpec) :
    (generateJoinOrders joins).length = joins.length.factorial :=
  generateJoinOrders_length joins

/-! Lemmas about first-occurrence deduplication. -/

theorem mem_of_mem_dedupByKey {α κ : Type} [DecidableEq κ] (key : α → κ) :
    ∀ (l : List α) (seen : List κ) (x : α), x ∈ dedupByKey key l seen → x ∈ l := by
  intro l
  induction l with
  | nil => simp [dedupByKey]
  | cons a as ih =>
      intro seen x hx
      simp only [dedupByKey] at hx
      split at hx
      · exact List.mem_cons_of_mem _ (ih _ _ hx)
      · rcases List.mem_cons.mp hx with rfl | h
        · exact List.mem_cons_self _ _
        · exact List.mem_cons_of_mem _ (ih _ _ h)

theorem dedupByKey_keys_nodup {α κ : Type} [DecidableEq κ] (key : α → κ) :
    ∀ (l : List α) (seen : List κ),
      ((dedupByKey key l seen).map key).Nodup
      ∧ ∀ k ∈ (dedupByKey key l seen).map key, k ∉ seen := by
  intro l
  induction l with
  | nil => intro seen; simp [dedupByKey]
  | cons a as ih =>
      intro seen
      simp only [dedupByKey]
      split
      · exact ih seen
      · rename_i hns
        obtain ⟨hnd, hseen⟩ := ih (key a :: seen)
        refine ⟨?_, ?_⟩
        · simp only [List.map_cons, List.nodup_cons]
          exact ⟨fun hmem => (hseen _ hmem) (List.mem_cons_self _ _), hnd⟩
        · intro k hk
          simp only [List.map_cons, List.mem_cons] at hk
          rcases hk with rfl | hk
          · exact hns
          · exact fun hkseen => (hseen k hk) (List.mem_cons_of_mem _ hkseen)

theorem dedupFirst_keys_nodup {α κ : Type} [DecidableEq κ] (key : α → κ) (l : List α) :
    ((dedupFirst key l).map key).Nodup :=
  (dedupByKey_keys_nodup key l []).1

theorem dedupFirst_id_nodup {α : Type} [DecidableEq α] (l : List α) :
    (dedupFirst id l).Nodup := by
  have h := dedupFirst_keys_nodup (id : α → α) l
  simpa using h

theorem dedupByKey_id_eq_self {α : Type} [DecidableEq α] :
    ∀ (l : List α) (seen : List α), l.Nodup → (∀ x ∈ l, x ∉ seen) →
      dedupByKey id l seen = l := by
  intro l
  induction l with
  | nil => intro seen _ _; rfl
  | cons a as ih =>
      intro seen hnd hdisj
      simp only [dedupByKey, id]
      rw [if_neg (hdisj a (List.mem_cons_self _ _))]
      congr 1
      apply ih _ (List.nodup_cons.mp hnd).2
      intro x hx
      simp only [List.mem_cons, not_or]
      exact ⟨fun he => (List.nodup_cons.mp hnd).1 (he ▸ hx),
             hdisj x (List.mem_cons_of_mem _ hx)⟩

theorem dedupFirst_id_eq_self {α : Type} [DecidableEq α] (l : List α) (h : l.Nodup) :
    dedupFirst id l = l :=
  dedupByKey_id_eq_self l [] h (by simp)

/-! Claim C7: `optimizeIR` invariants. -/

theorem containsPlainCol_of_prepend (sel : List SelectCol) (c : SelectCol) (g : ColumnRef)
    (h : containsPlainCol sel g = true) : containsPlainCol (c :: sel) g = true := by
  simp only [containsPlainCol, List.any_cons, Bool.or_eq_true]
  exact Or.inr h

theorem insertGroupCols_mono :
    ∀ (gs : List ColumnRef) (sel : List SelectCol) (g : ColumnRef),
      containsPlainCol sel g = true → containsPlainCol (insertGroupCols sel gs) g = true := by
  intro gs
  induction gs with
  | nil => intro sel g h; simpa [insertGroupCols] using h
  | cons x xs ih =>
      intro sel g h
      simp only [insertGroupCols]
      apply ih
      split
      · exact h
      · exact containsPlainCol_of_prepend _ _ _ h

theorem insertGroupCols_contains :
    ∀ (gs : List ColumnRef) (sel : List SelectCol) (g : ColumnRef),
      g ∈ gs → containsPlainCol (insertGroupCols sel gs) g = true := by
  intro gs
  induction gs with
  | nil => intro sel g hg; simp at hg
  | cons x xs ih =>
      intro sel g hg
      rcases List.mem_cons.mp hg with rfl | hg
      · simp only [insertGroupCols]
        apply insertGroupCols_mono
        split
        · assumption
        · simp [containsPlainCol]
      · simp only [insertGroupCols]
        exact ih _ _ hg

/-- C7: after `optimizeIR`, every groupBy column also occurs among the
projected columns as a plain column reference with the same table and
column, the groupBy list has no duplicate `table.column` keys, and every
field other than `columns` and `groupBy` is unchanged. -/
theorem optimizeIR_groupBy_invariants (ir : SelectQueryIR) :
    (∀ g ∈ (optimizeIR ir).groupBy.getD [],
       containsPlainCol (optimizeIR ir).columns g = true)
    ∧ (((optimizeIR ir).groupBy.getD []).map groupKey).Nodup
    ∧ (optimizeIR ir).fromT = ir.fromT
    ∧ (optimizeIR ir).joins = ir.joins
    ∧ (optimizeIR ir).whereC = ir.whereC
    ∧ (optimizeIR ir).having = ir.having
    ∧ (optimizeIR ir).orderBy = ir.orderBy
    ∧ (optimizeIR ir).limit = ir.limit := by
  refine ⟨?_, ?_, by simp [optimizeIR], by simp [optimizeIR], by simp [optimizeIR],
    by simp [optimizeIR], by simp [optimizeIR], by simp [optimizeIR]⟩
  · intro g hg
    cases hgb : ir.groupBy with
    | none => simp [optimizeIR, hgb] at hg
    | some gb =>
        simp only [optimizeIR, hgb, Option.map_some', Option.getD_some] at hg ⊢
        have hg' : g ∈ gb := mem_of_mem_dedupByKey groupKey gb [] g hg
        have hne : gb ≠ [] := by
          intro he
          subst he
          simp at hg'
        simp only [if_pos hne]
        exact insertGroupCols_contains gb ir.columns g hg'
  · cases hgb : ir.groupBy with
    | none => simp [optimizeIR, hgb]
    | some gb =>
        simp only [optimizeIR, hgb, Option.map_some', Option.getD_some]
        exact dedupFirst_keys_nodup groupKey gb

/-- A concrete IR exercising C7: a duplicated groupBy column that is not
projected. -/
def c7DemoIR : SelectQueryIR :=
  { fromT := "orders",
    columns := [SelectCol.colC (ref "orders" "total")],
    groupBy := some [ref "customers" "name", ref "customers" "name"] }

/-- C7 witness: the invariants instantiated on `c7DemoIR`. -/
theorem optimizeIR_groupBy_invariants_witness :
    containsPlainCol (optimizeIR c7DemoIR).columns (ref "customers" "name") = true
    ∧ (((optimizeIR c7DemoIR).groupBy.getD []).map groupKey).Nodup
    ∧ (optimizeIR c7DemoIR).limit = c7DemoIR.limit := by
  have h := optimizeIR_groupBy_invariants c7DemoIR
  exact ⟨h.1 (ref "customers" "name") (by decide), h.2.1, h.2.2.2.2.2.2.2⟩

/-! Pass-level lemmas for the advanced optimizer. -/

theorem dedupFirst_eq_nil_iff {α : Type} [DecidableEq α] (l : List α) :
    dedupFirst id l = [] ↔ l = [] := by
  cases l with
  | nil => simp [dedupFirst, dedupByKey]
  | cons a as => simp [dedupFirst, dedupByKey]

theorem simplifyConditions_eq_nil_iff (l : List Condition) :
    simplifyConditions l = [] ↔ l = [] :=
  dedupFirst_eq_nil_iff l

theorem pushPredicates_whereC (ir : SelectQueryIR) :
    (pushPredicates ir).1.whereC
      = ir.whereC.map (List.filter (fun c => !canPushDown c ir)) := by
  cases hw : ir.whereC with
  | none => simp [pushPredicates, hw]
  | some w =>
      simp only [pushPredicates, hw, Option.map_some']
      by_cases hnil : w = []
      · subst hnil; simp [hw]
      · rw [if_neg hnil]
        by_cases hp : w.filter (fun c => canPushDown c ir) ≠ []
        · rw [if_pos hp]
        · rw [if_neg hp]
          push_neg at hp
          have hall : ∀ c ∈ w, ¬ (canPushDown c ir = true) := by
            intro c hc hcan
            have : c ∈ w.filter (fun c => canPushDown c ir) :=
              List.mem_filter.mpr ⟨hc, hcan⟩
            simp [hp] at this
          have : w.filter (fun c => !canPushDown c ir) = w := by
            apply List.filter_eq_self.mpr
            intro a ha
            simp [hall a ha]
          rw [hw, this]

theorem pushPredicates_fromT (ir : SelectQueryIR) :
    (pushPredicates ir).1.fromT = ir.fromT := by
  cases hw : ir.whereC with
  | none => simp [pushPredicates, hw]
  | some w =>
      simp only [pushPredicates, hw]
      split
      · rfl
      · split <;> rfl

theorem pushPredicates_groupBy (ir : SelectQueryIR) :
    (pushPredicates ir).1.groupBy = ir.groupBy := by
  cases hw : ir.whereC with
  | none => simp [pushPredicates, hw]
  | some w =>
      simp only [pushPredicates, hw]
      split
      · rfl
      · split <;> rfl

theorem pushPredicates_orderBy (ir : SelectQueryIR) :
    (pushPredicates ir).1.orderBy = ir.orderBy := by
  cases hw : ir.whereC with
  | none => simp [pushPredicates, hw]
  | some w =>
      simp only [pushPredicates, hw]
      split
      · rfl
      · split <;> rfl

theorem pushPredicates_joins_isSome (ir : SelectQueryIR) :
    (pushPredicates ir).1.joins.isSome = ir.joins.isSome := by
  cases hw : ir.whereC with
  | none => simp [pushPredicates, hw]
  | some w =>
      simp only [pushPredicates, hw]
      repeat' split
      · rfl
      · simp [Option.isSome_map]
      · rfl

theorem pushPredicates_joins_length (ir : SelectQueryIR) :
    ((pushPredicates ir).1.joins.getD []).length = (ir.joins.getD []).length := by
  cases hw : ir.whereC with
  | none => simp [pushPredicates, hw]
  | some w =>
      simp only [pushPredicates, hw]
      repeat' split
      · rfl
      · cases ir.joins <;> simp
      · rfl

theorem pushPredicates_fresh (ir : SelectQueryIR) :
    (pushPredicates ir).2 = !(ir.whereC.getD []).isEmpty := by
  cases hw : ir.whereC with
  | none => simp [pushPredicates, hw]
  | some w =>
      simp only [pushPredicates, hw]
      by_cases hnil : w = []
      · subst hnil; simp
      · rw [if_neg hnil]
        have : w.isEmpty = false := by
          cases w with
          | nil => simp at hnil
          | cons a as => rfl
        split <;> simp [this]

theorem canPushDown_congr (c : Condition) (a b : SelectQueryIR)
    (h : a.joins.isSome = b.joins.isSome) :
    canPushDown c a = canPushDown c b := by
  cases ha : a.joins <;> cases hb : b.joins <;>
    simp [ha, hb] at h <;>
    cases hl : c.lhs <;>
    simp [canPushDown, dependsOnJoin, ha, hb, hl]

theorem estimate_joins_term (js : List JoinSpec) :
    (js.map (fun j => joinCost j 1000)).sum = 1000 * js.length := by
  induction js with
  | nil => simp
  | cons j rest ih =>
      simp only [List.map_cons, List.sum_cons, ih]
      have : joinCost j 1000 = 1000 := by norm_num [joinCost]
      rw [this]
      push_cast [List.length_cons]
      ring

theorem estimate_congr (sortC : ℚ) (a b : SelectQueryIR)
    (hw : a.whereC = b.whereC)
    (hj : a.joins.isSome = b.joins.isSome)
    (hjl : (a.joins.getD []).length = (b.joins.getD []).length)
    (hg : a.groupBy = b.groupBy)
    (ho : a.orderBy.isSome = b.orderBy.isSome) :
    estimate sortC a = estimate sortC b := by
  have h1 : (match a.joins with
      | some js => (List.map (fun j => joinCost j 1000) js).sum
      | none => (0 : ℚ))
      = (match b.joins with
      | some js => (List.map (fun j => joinCost j 1000) js).sum
      | none => (0 : ℚ)) := by
    cases hja : a.joins with
    | none =>
        cases hjb : b.joins with
        | none => rfl
        | some jb => rw [hja, hjb] at hj; simp at hj
    | some ja =>
        cases hjb : b.joins with
        | none => rw [hja, hjb] at hj; simp at hj
        | some jb =>
            rw [hja, hjb] at hjl
            simp only [Option.getD_some] at hjl
            simp only [estimate_joins_term, hjl]
  have h2 : (match a.orderBy with
      | some _ => sortC
      | none => (0 : ℚ))
      = (match b.orderBy with
      | some _ => sortC
      | none => (0 : ℚ)) := by
    cases hoa : a.orderBy with
    | none =>
        cases hob : b.orderBy with
        | none => rfl
        | some ob => rw [hoa, hob] at ho; simp at ho
    | some oa =>
        cases hob : b.orderBy with
        | none => rw [hoa, hob] at ho; simp at ho
        | some ob => rfl
  unfold estimate scanCost
  rw [hw, hg, h1, h2]

theorem foldl_joinFoldStep_mem (sortC : ℚ) (ir : SelectQueryIR) :
    ∀ (os : List (List JoinSpec)) (acc : List JoinSpec × Option ℚ),
      (os.foldl (joinFoldStep sortC ir) acc).1 = acc.1
      ∨ (os.foldl (joinFoldStep sortC ir) acc).1 ∈ os := by
  intro os
  induction os with
  | nil => intro acc; left; rfl
  | cons o rest ih =>
      intro acc
      simp only [List.foldl_cons]
      rcases ih (joinFoldStep sortC ir acc o) with h | h
      · have hstep : (joinFoldStep sortC ir acc o).1 = acc.1
            ∨ (joinFoldStep sortC ir acc o).1 = o := by
          unfold joinFoldStep
          cases acc.2 with
          | none => right; rfl
          | some b =>
              simp only
              split
              · right; rfl
              · left; rfl
        rcases hstep with h2 | h2
        · left; rw [h, h2]
        · right; rw [h, h2]; exact List.mem_cons_self _ _
      · right; exact List.mem_cons_of_mem _ h

theorem joinOptimizerOptimize_spec (sortC : ℚ) (ir : SelectQueryIR) (js : List JoinSpec)
    (h : ir.joins = some js) (hlen : 1 < js.length) :
    ∃ best : List JoinSpec,
      joinOptimizerOptimize sortC ir = ({ ir with joins := some best }, true)
      ∧ best.length = js.length := by
  simp only [joinOptimizerOptimize, h]
  rw [if_neg (by omega : ¬ js.length ≤ 1)]
  refine ⟨_, rfl, ?_⟩
  rcases foldl_joinFoldStep_mem sortC ir (generateJoinOrders js) (js, none) with hm | hm
  · rw [hm]
  · exact generateJoinOrders_mem_length js _ hm

theorem pruneColumns_ok_spec (ir : SelectQueryIR) (h : ir.orderBy.getD [] = []) :
    ∃ ks, pruneColumns ir = .ok ({ ir with prunedColumns := ks }, true) := by
  unfold pruneColumns
  rw [if_neg (by simp [h])]
  exact ⟨_, rfl⟩

theorem selectIndexes_ok (ir : SelectQueryIR) (h : ir.orderBy.getD [] = []) :
    selectIndexes ir = .ok (ir, true) := by
  unfold selectIndexes
  rw [if_neg (by simp [h])]

theorem whereC_getD_nil_iff (ir : SelectQueryIR) :
    ((ir.whereC.map simplifyConditions).getD [] = []) ↔ (ir.whereC.getD [] = []) := by
  cases hw : ir.whereC with
  | none => simp
  | some w => simpa using simplifyConditions_eq_nil_iff w

/-- The success behaviour of `AdvancedQueryOptimizer.optimize`: for an IR
whose orderBy is absent or empty and whose joins are absent or empty (on
any other IR optimize throws, see `optimize_error_of_orderBy` and
`optimize_error_of_joins`), optimize succeeds, and the result's
cost-relevant fields and recorded pass list have the shapes proved here. -/
theorem optimize_ok_spec (sortC : ℚ) (ir : SelectQueryIR)
    (horder : ir.orderBy.getD [] = []) (hjoins : (ir.joins.getD []).length = 0) :
    ∃ r, optimize sortC ir = .ok r
      ∧ r.optimizedIR.whereC
          = ir.whereC.map (fun w =>
              (simplifyConditions w).filter (fun c => !canPushDown c (simplify ir).1))
      ∧ r.optimizedIR.joins.isSome = ir.joins.isSome
      ∧ (r.optimizedIR.joins.getD []).length = (ir.joins.getD []).length
      ∧ r.optimizedIR.groupBy = ir.groupBy
      ∧ r.optimizedIR.orderBy = ir.orderBy
      ∧ r.estimatedCost = estimate sortC r.optimizedIR
      ∧ r.optimizations
          = [OptimizationType.CONSTANT_FOLDING]
            ++ (if (ir.whereC.getD []) ≠ [] then [OptimizationType.PREDICATE_PUSHDOWN] else [])
            ++ [OptimizationType.COLUMN_PRUNING]
            ++ (if 1 < (ir.joins.getD []).length then [OptimizationType.JOIN_REORDERING] else [])
            ++ [OptimizationType.INDEX_SELECTION] := by
  have hsW : (simplify ir).1.whereC = ir.whereC.map simplifyConditions := rfl
  have hsJ : (simplify ir).1.joins = ir.joins := rfl
  have hsG : (simplify ir).1.groupBy = ir.groupBy := rfl
  have hsO : (simplify ir).1.orderBy = ir.orderBy := rfl
  obtain ⟨p, f2, hP⟩ : ∃ p f2, pushPredicates (simplify ir).1 = (p, f2) := ⟨_, _, rfl⟩
  have hp1 : p = (pushPredicates (simplify ir).1).1 := by rw [hP]
  have hpW : p.whereC
      = (ir.whereC.map simplifyConditions).map
          (List.filter (fun c => !canPushDown c (simplify ir).1)) := by
    rw [hp1, pushPredicates_whereC, hsW]
  have hpO : p.orderBy = ir.orderBy := by rw [hp1, pushPredicates_orderBy, hsO]
  have hpG : p.groupBy = ir.groupBy := by rw [hp1, pushPredicates_groupBy, hsG]
  have hpJs : p.joins.isSome = ir.joins.isSome := by
    rw [hp1, pushPredicates_joins_isSome, hsJ]
  have hpJl : (p.joins.getD []).length = (ir.joins.getD []).length := by
    rw [hp1, pushPredicates_joins_length, hsJ]
  have hf2 : f2 = !(ir.whereC.getD []).isEmpty := by
    have : f2 = (pushPredicates (simplify ir).1).2 := by rw [hP]
    rw [this, pushPredicates_fresh, hsW]
    cases hw : ir.whereC with
    | none => simp
    | some w =>
        simp only [Option.map_some', Option.getD_some]
        cases hwn : w with
        | nil => simp [simplifyConditions, dedupFirst, dedupByKey]
        | cons a as =>
            have h1 : (simplifyConditions (a :: as)).isEmpty = false := by
              have := (simplifyConditions_eq_nil_iff (a :: as))
              cases hsc : simplifyConditions (a :: as) with
              | nil => exact absurd (this.mp hsc) (by simp)
              | cons x xs => rfl
            simp [h1]
  obtain ⟨ks, hpr⟩ := pruneColumns_ok_spec p (by rw [hpO]; exact horder)
  set pr : SelectQueryIR := { p with prunedColumns := ks } with hprdef
  have hprW : pr.whereC = p.whereC := rfl
  have hprO : pr.orderBy = p.orderBy := rfl
  have hprJ : pr.joins = p.joins := rfl
  have hprG : pr.groupBy = p.groupBy := rfl
  -- the join-reordering stage
  obtain ⟨jr, f4, hJR, hjrW, hjrJs, hjrJl, hjrG, hjrO, hf4⟩ :
      ∃ jr f4,
        (match pr.joins with
          | some js =>
              if js.length > 1 then joinOptimizerOptimize sortC pr
              else (pr, false)
          | none => (pr, false)) = (jr, f4)
        ∧ jr.whereC = p.whereC
        ∧ jr.joins.isSome = ir.joins.isSome
        ∧ (jr.joins.getD []).length = (ir.joins.getD []).length
        ∧ jr.groupBy = ir.groupBy
        ∧ jr.orderBy = ir.orderBy
        ∧ f4 = decide (1 < (ir.joins.getD []).length) := by
    cases hj : pr.joins with
    | none =>
        have hj' : p.joins = none := hprJ ▸ hj
        refine ⟨_, _, rfl, hprW, ?_, ?_, hprG.trans hpG, hprO.trans hpO, ?_⟩
        · rw [hj]
          simpa [hj'] using hpJs
        · rw [hj]
          simpa [hj'] using hpJl
        · have : (ir.joins.getD []).length = 0 := by simpa [hj'] using hpJl.symm
          simp [this]
    | some js =>
        dsimp only
        have hj' : p.joins = some js := hprJ ▸ hj
        have hlen : js.length = (ir.joins.getD []).length := by
          simpa [hj'] using hpJl
        by_cases hgt : js.length > 1
        · rw [if_pos hgt]
          obtain ⟨best, heq, hbl⟩ := joinOptimizerOptimize_spec sortC pr js hj hgt
          rw [heq]
          refine ⟨_, _, rfl, hprW, ?_, ?_, hprG.trans hpG, hprO.trans hpO, ?_⟩
          · simpa [hj'] using hpJs
          · simp only [Option.getD_some, hbl, hlen]
          · rw [← hlen]
            exact (decide_eq_true hgt).symm
        · rw [if_neg hgt]
          refine ⟨_, _, rfl, hprW, ?_, ?_, hprG.trans hpG, hprO.trans hpO, ?_⟩
          · rw [hj]
            simpa [hj'] using hpJs
          · rw [hj]
            simpa [hj'] using hpJl
          · rw [← hlen]
            exact (decide_eq_false hgt).symm
  have hsi : selectIndexes jr = .ok (jr, true) := selectIndexes_ok jr (by rw [hjrO]; exact horder)
  have hjrnil : jr.joins = none ∨ jr.joins = some [] := by
    have hlen0 : (jr.joins.getD []).length = 0 := by rw [hjrJl, hjoins]
    cases hj : jr.joins with
    | none => exact Or.inl rfl
    | some l =>
        right
        rw [hj] at hlen0
        simp only [Option.getD_some] at hlen0
        rw [List.length_eq_zero] at hlen0
        rw [hlen0]
  refine ⟨{ optimizedIR := jr, estimatedCost := estimate sortC jr,
            optimizations :=
              [OptimizationType.CONSTANT_FOLDING]
              ++ (if f2 then [OptimizationType.PREDICATE_PUSHDOWN] else [])
              ++ [OptimizationType.COLUMN_PRUNING]
              ++ (if f4 then [OptimizationType.JOIN_REORDERING] else [])
              ++ [OptimizationType.INDEX_SELECTION] }, ?_, ?_, hjrJs, hjrJl, hjrG, hjrO, rfl, ?_⟩
  · show optimize sortC ir = _
    unfold optimize
    simp only [hP, hpr, hJR, hsi, Except.bind, bind]
    rcases hjrnil with hjn | hjn <;> rw [hjn] <;>
      simp [show (simplify ir).2 = true from rfl, pure, Except.pure]
  · rw [hjrW, hpW]
    cases ir.whereC <;> simp
  · have hb2 : (if f2 then [OptimizationType.PREDICATE_PUSHDOWN] else [])
        = (if (ir.whereC.getD []) ≠ [] then [OptimizationType.PREDICATE_PUSHDOWN] else []) := by
      rw [hf2]
      cases hw : ir.whereC.getD [] with
      | nil => simp
      | cons a as => simp
    have hb4 : (if f4 then [OptimizationType.JOIN_REORDERING] else [])
        = (if 1 < (ir.joins.getD []).length then [OptimizationType.JOIN_REORDERING] else []) := by
      rw [hf4]
      by_cases hgt : 1 < (ir.joins.getD []).length <;> simp [hgt]
    rw [hb2, hb4]

theorem optimize_error_of_orderBy (sortC : ℚ) (ir : SelectQueryIR)
    (h : ir.orderBy.getD [] ≠ []) :
    optimize sortC ir
      = .error (.typeError "Cannot read properties of undefined (reading table)") := by
  obtain ⟨p, f2, hP⟩ : ∃ p f2, pushPredicates (simplify ir).1 = (p, f2) := ⟨_, _, rfl⟩
  have hpO : p.orderBy = ir.orderBy := by
    rw [show p = (pushPredicates (simplify ir).1).1 from by rw [hP], pushPredicates_orderBy]
    rfl
  have hpr : pruneColumns p
      = .error (.typeError "Cannot read properties of undefined (reading table)") := by
    unfold pruneColumns
    rw [if_pos (by rw [hpO]; exact h)]
  unfold optimize
  simp only [hP, hpr, Except.bind, bind]

/-- The collapsed error path the spec does not mention: with an empty
orderBy (so the passes succeed) but at least one join, `generateAlternatives`
JSON-clones the IR, the pass-5 `selectedIndexes` Map becomes a plain object
with no `.has` method, and the clone's `generatePlan` throws calling it —
optimize never returns. -/
theorem optimize_error_of_joins (sortC : ℚ) (ir : SelectQueryIR)
    (horder : ir.orderBy.getD [] = []) (hjoins : (ir.joins.getD []).length ≠ 0) :
    optimize sortC ir
      = .error (.typeError "ir.selectedIndexes?.has is not a function") := by
  obtain ⟨p, f2, hP⟩ : ∃ p f2, pushPredicates (simplify ir).1 = (p, f2) := ⟨_, _, rfl⟩
  have hp1 : p = (pushPredicates (simplify ir).1).1 := by rw [hP]
  have hpO : p.orderBy = ir.orderBy := by rw [hp1, pushPredicates_orderBy]; rfl
  have hpJl : (p.joins.getD []).length = (ir.joins.getD []).length := by
    rw [hp1, pushPredicates_joins_length]; rfl
  obtain ⟨ks, hpr⟩ := pruneColumns_ok_spec p (by rw [hpO]; exact horder)
  set pr : SelectQueryIR := { p with prunedColumns := ks } with hprdef
  have hprO : pr.orderBy = p.orderBy := rfl
  have hprJ : pr.joins = p.joins := rfl
  obtain ⟨jr, f4, hJR, hjrO, hjrJl⟩ :
      ∃ jr f4,
        (match pr.joins with
          | some js =>
              if js.length > 1 then joinOptimizerOptimize sortC pr
              else (pr, false)
          | none => (pr, false)) = (jr, f4)
        ∧ jr.orderBy = ir.orderBy
        ∧ (jr.joins.getD []).length = (ir.joins.getD []).length := by
    cases hj : pr.joins with
    | none =>
        refine ⟨_, _, rfl, hprO.trans hpO, ?_⟩
        have hj' : p.joins = none := hprJ ▸ hj
        rw [hj]
        simpa [hj'] using hpJl
    | some js =>
        dsimp only
        have hj' : p.joins = some js := hprJ ▸ hj
        have hlen : js.length = (ir.joins.getD []).length := by simpa [hj'] using hpJl
        by_cases hgt : js.length > 1
        · rw [if_pos hgt]
          obtain ⟨best, heq, hbl⟩ := joinOptimizerOptimize_spec sortC pr js hj hgt
          rw [heq]
          exact ⟨_, _, rfl, hprO.trans hpO, by simp only [Option.getD_some, hbl, hlen]⟩
        · rw [if_neg hgt]
          refine ⟨_, _, rfl, hprO.trans hpO, ?_⟩
          rw [hj]
          simpa [hj'] using hpJl
  have hsi : selectIndexes jr = .ok (jr, true) := selectIndexes_ok jr (by rw [hjrO]; exact horder)
  obtain ⟨x, xs, hjj⟩ : ∃ x xs, jr.joins = some (x :: xs) := by
    cases hj : jr.joins with
    | none =>
        rw [hj] at hjrJl
        simp only [Option.getD_none, List.length_nil] at hjrJl
        exact absurd hjrJl.symm hjoins
    | some l =>
        cases l with
        | nil =>
            rw [hj] at hjrJl
            simp only [Option.getD_some, List.length_nil] at hjrJl
            exact absurd hjrJl.symm hjoins
        | cons x xs => exact ⟨x, xs, rfl⟩
  unfold optimize
  simp only [hP, hpr, hJR, hsi, Except.bind, bind, hjj]

/-! Claims C3 and C8 about `AdvancedQueryOptimizer.optimize`. -/

/-- C3 counterexample: an IR with no where conditions, no joins and nothing
to fold — one no pass can alter (column pruning only records metadata) —
still yields a non-empty `optimizations` list: constant folding, column
pruning and index selection are reported although nothing changed, because
each of those passes always returns a fresh clone and the source tests
object identity (`!==`), not content. -/
theorem optimize_reports_passes_on_unalterable_ir_cex :
    (optimize 0 { fromT := "t", columns := [SelectCol.colC (ref "t" "*")] }).map
        (fun r => r.optimizations)
      = .ok [OptimizationType.CONSTANT_FOLDING, OptimizationType.COLUMN_PRUNING,
             OptimizationType.INDEX_SELECTION]
    ∧ ([OptimizationType.CONSTANT_FOLDING, OptimizationType.COLUMN_PRUNING,
        OptimizationType.INDEX_SELECTION] : List OptimizationType) ≠ [] := by
  refine ⟨?_, by decide⟩
  simp [optimize, simplify, simplifyConditions, dedupFirst,
    dedupByKey, pushPredicates, pruneColumns, selectIndexes, Except.bind, bind,
    selColKey, groupKey, pure, Except.pure, ref, Except.map]

/-- C3 amended: an optimizations entry marks that the pass returned a fresh
object (`!==`), not that it changed the IR.  Whenever optimize returns at
all, the list is exactly constant folding, predicate pushdown iff the where
list is present and non-empty, column pruning and index selection — never
empty, and never containing join reordering or subquery unnesting — because
for every IR with at least one join optimize never returns: after the
passes, `generateAlternatives` JSON-clones the IR, the pass-5
`selectedIndexes` Map collapses to a plain object, and the clone's
`generatePlan` throws a TypeError calling `.has` on it. -/
theorem optimize_optimizations_formula (sortC : ℚ) (ir : SelectQueryIR) :
    (∀ r, optimize sortC ir = .ok r →
       r.optimizations
         = [OptimizationType.CONSTANT_FOLDING]
           ++ (if (ir.whereC.getD []) ≠ [] then [OptimizationType.PREDICATE_PUSHDOWN] else [])
           ++ [OptimizationType.COLUMN_PRUNING, OptimizationType.INDEX_SELECTION]
       ∧ r.optimizations ≠ []
       ∧ OptimizationType.JOIN_REORDERING ∉ r.optimizations)
    ∧ ((ir.joins.getD []).length ≠ 0 → ∀ r, optimize sortC ir ≠ .ok r) := by
  have herr : (ir.joins.getD []).length ≠ 0 → ∀ r, optimize sortC ir ≠ .ok r := by
    intro hjne r hok
    by_cases horder : ir.orderBy.getD [] = []
    · rw [optimize_error_of_joins sortC ir horder hjne] at hok
      exact absurd hok (by simp)
    · rw [optimize_error_of_orderBy sortC ir horder] at hok
      exact absurd hok (by simp)
  refine ⟨?_, herr⟩
  intro r h
  have horder : ir.orderBy.getD [] = [] := by
    by_contra hne
    rw [optimize_error_of_orderBy sortC ir hne] at h
    exact absurd h (by simp)
  have hjoins : (ir.joins.getD []).length = 0 := by
    by_contra hne
    exact herr hne r h
  obtain ⟨r', heq, _, _, _, _, _, _, hops⟩ := optimize_ok_spec sortC ir horder hjoins
  have hrr : r' = r := Except.ok.inj (heq ▸ h)
  subst hrr
  rw [if_neg (by omega : ¬ 1 < (ir.joins.getD []).length)] at hops
  refine ⟨by simpa using hops, ?_, ?_⟩
  · rw [hops]
    simp
  · rw [hops]
    cases hw : ir.whereC.getD [] <;> simp

/-- A minimal concrete IR and the optimize result on it, for the C3 and C8
witnesses. -/
def plainDemoIR : SelectQueryIR :=
  { fromT := "t", columns := [SelectCol.colC (ref "t" "*")] }

/-- The concrete result `optimize 0 plainDemoIR` evaluates to. -/
def plainDemoResult : OptimizationResult :=
  { optimizedIR :=
      { fromT := "t", columns := [SelectCol.colC (ref "t" "*")], prunedColumns := ["t.*"] },
    estimatedCost := 123,
    optimizations := [OptimizationType.CONSTANT_FOLDING, OptimizationType.COLUMN_PRUNING,
                      OptimizationType.INDEX_SELECTION] }

/-- The concrete evaluation used by the C3 and C8 witnesses. -/
theorem optimize_plainDemo_eval : optimize 0 plainDemoIR = .ok plainDemoResult := by
  simp [optimize, plainDemoIR, plainDemoResult, simplify, simplifyConditions, dedupFirst,
    dedupByKey, pushPredicates, pruneColumns, selectIndexes, Except.bind, bind, estimate,
    scanCost, selColKey, groupKey, pure, Except.pure, ref]

/-- A one-join IR for the error half of the C3 witness. -/
def joinDemoIR : SelectQueryIR :=
  { fromT := "t", columns := [SelectCol.colC (ref "t" "*")],
    joins := some [{ type := "inner", left := ref "t" "a", right := ref "u" "b" }] }

/-- C3 witness: the amended formula applied at a concrete join-free input,
and the never-returns half applied at a concrete one-join input. -/
theorem optimize_optimizations_formula_witness :
    optimize 0 plainDemoIR = .ok plainDemoResult
    ∧ (plainDemoResult.optimizations
        = [OptimizationType.CONSTANT_FOLDING]
          ++ (if (plainDemoIR.whereC.getD []) ≠ [] then [OptimizationType.PREDICATE_PUSHDOWN] else [])
          ++ [OptimizationType.COLUMN_PRUNING, OptimizationType.INDEX_SELECTION]
        ∧ plainDemoResult.optimizations ≠ []
        ∧ OptimizationType.JOIN_REORDERING ∉ plainDemoResult.optimizations)
    ∧ (∀ r, optimize 0 joinDemoIR ≠ .ok r) :=
  ⟨optimize_plainDemo_eval,
   (optimize_optimizations_formula 0 plainDemoIR).1 plainDemoResult optimize_plainDemo_eval,
   (optimize_optimizations_formula 0 joinDemoIR).2 (by decide)⟩

/-- C8: re-optimizing an already-optimized IR yields no further cost
reduction: when a first optimize call succeeds, the second call on its
optimizedIR succeeds as well and reports an estimatedCost that is not lower
than the first call's (the costs are in fact equal). -/
theorem optimize_idempotent_cost (sortC : ℚ) (ir : SelectQueryIR)
    (r₁ : OptimizationResult) (h₁ : optimize sortC ir = .ok r₁) :
    ∃ r₂, optimize sortC r₁.optimizedIR = .ok r₂
      ∧ r₁.estimatedCost ≤ r₂.estimatedCost := by
  have horder : ir.orderBy.getD [] = [] := by
    by_contra hne
    rw [optimize_error_of_orderBy sortC ir hne] at h₁
    exact absurd h₁ (by simp)
  have hjoins : (ir.joins.getD []).length = 0 := by
    by_contra hne
    rw [optimize_error_of_joins sortC ir horder hne] at h₁
    exact absurd h₁ (by simp)
  obtain ⟨r, heq, hW, hJs, hJl, hG, hO, hE, _⟩ := optimize_ok_spec sortC ir horder hjoins
  have hrr : r = r₁ := Except.ok.inj (heq ▸ h₁)
  subst hrr
  have horder2 : r.optimizedIR.orderBy.getD [] = [] := by rw [hO]; exact horder
  have hjoins2 : (r.optimizedIR.joins.getD []).length = 0 := by rw [hJl]; exact hjoins
  obtain ⟨r₂, heq₂, hW₂, hJs₂, hJl₂, hG₂, hO₂, hE₂, _⟩ :=
    optimize_ok_spec sortC r.optimizedIR horder2 hjoins2
  refine ⟨r₂, heq₂, ?_⟩
  rw [hE, hE₂]
  apply le_of_eq
  apply estimate_congr
  · -- the where lists agree: the filtered, deduplicated conditions are a
    -- fixed point of the simplify-and-push round
    rw [hW₂, hW]
    cases hirw : ir.whereC with
    | none => simp
    | some w =>
        simp only [Option.map_some']
        congr 1
        have hpeq : (fun c => !canPushDown c (simplify r.optimizedIR).1)
            = (fun c => !canPushDown c (simplify ir).1) := by
          funext c
          have : (simplify r.optimizedIR).1.joins.isSome
              = (simplify ir).1.joins.isSome := by
            show r.optimizedIR.joins.isSome = ir.joins.isSome
            exact hJs
          rw [canPushDown_congr c _ _ this]
        rw [hpeq]
        have hnd : ((simplifyConditions w).filter
            (fun c => !canPushDown c (simplify ir).1)).Nodup :=
          (dedupFirst_id_nodup w).filter _
        rw [show simplifyConditions ((simplifyConditions w).filter
              (fun c => !canPushDown c (simplify ir).1))
            = (simplifyConditions w).filter (fun c => !canPushDown c (simplify ir).1) from
          dedupFirst_id_eq_self _ hnd]
        exact (List.filter_eq_self.mpr (fun a ha => (List.mem_filter.mp ha).2)).symm
  · exact hJs₂.symm
  · exact hJl₂.symm
  · exact hG₂.symm
  · rw [hO₂]

/-- C8 witness: both optimize calls evaluated at a concrete IR. -/
theorem optimize_idempotent_cost_witness :
    optimize 0 plainDemoIR = .ok plainDemoResult
    ∧ ∃ r₂, optimize 0 plainDemoResult.optimizedIR = .ok r₂
        ∧ plainDemoResult.estimatedCost ≤ r₂.estimatedCost :=
  ⟨optimize_plainDemo_eval, optimize_idempotent_cost 0 plainDemoIR plainDemoResult
    optimize_plainDemo_eval⟩

/-! Claim C9: the zero-table failure of the heuristic IR builder. -/

/-- C9 counterexample: on a concrete zero-table schema with no default
table, parseIntentToIR throws the plain untyped `new Error(...)` of
simple-processor line 774 — there is no `NoTableError` class anywhere in the
repository, so the failure the claim requires to be a typed NoTableError is
a generic Error value. -/
theorem parseIntentToIR_zero_tables_cex :
    parseIntentToIR "show revenue" ⟨[]⟩ {}
      = .error (.error
          "No tables available to infer from. Available tables: none. Query: \"show revenue\"") := by
  decide

/-- C9 amended: for every prompt, a schema with zero tables and a falsy
defaultTable option make parseIntentToIR throw the generic `Error` whose
message lists no available tables; it never returns an IR and never fails
any other way. -/
theorem parseIntentToIR_zero_tables (prompt : String) (schema : SchemaInfo)
    (opts : ParseOptions) (hschema : schema.tables = [])
    (hdef : jsTruthy opts.defaultTable = false) :
    parseIntentToIR prompt schema opts
      = .error (.error ("No tables available to infer from. Available tables: none. Query: \""
          ++ prompt ++ "\"")) := by
  obtain ⟨ts⟩ := schema
  simp only at hschema
  subst hschema
  have hhints : ∀ text, inferBaseHints text ⟨[]⟩ = none := by
    intro text
    simp [inferBaseHints, findTableByName, jsToLower, singularize]
  have hor : jsOrStr opts.defaultTable none = none := by
    unfold jsOrStr
    rw [hdef]
    simp
  have h1 : inferBaseTables (jsToLower prompt) ⟨[]⟩ (inferBaseHints (jsToLower prompt) ⟨[]⟩)
      = none := by
    simp [inferBaseTables, hhints]
  have hbase : inferBase (jsToLower prompt) ⟨[]⟩ opts = none := by
    simp only [inferBase, h1]
    simp only [show jsTruthy none = false from rfl, Bool.false_eq_true, if_false]
    simpa using hor
  simp [parseIntentToIR, hbase, jsTruthy, jsJoin]

/-- C9 witness: the amended theorem applied at a concrete prompt, schema and
options. -/
theorem parseIntentToIR_zero_tables_witness :
    parseIntentToIR "count orders" ⟨[]⟩ {}
      = .error (.error
          "No tables available to infer from. Available tables: none. Query: \"count orders\"") :=
  parseIntentToIR_zero_tables "count orders" ⟨[]⟩ {} rfl rfl

/-! Claim C6: relative-date rendering and the builder's interval filter. -/

theorem jsJoin_mem_infix (sep : String) :
    ∀ (l : List String) (a : String), a ∈ l → a.data <:+: (jsJoin sep l).data := by
  intro l
  induction l with
  | nil => intro a ha; simp at ha
  | cons x xs ih =>
      intro a ha
      rcases List.mem_cons.mp ha with rfl | ha
      · cases xs with
        | nil => exact List.infix_refl _
        | cons y ys =>
            show a.data <:+: (a ++ sep ++ jsJoin sep (y :: ys)).data
            rw [data_append, data_append, List.append_assoc]
            exact (List.prefix_append _ _).isInfix
      · cases xs with
        | nil => simp at ha
        | cons y ys =>
            have h1 := ih a ha
            show a.data <:+: (x ++ sep ++ jsJoin sep (y :: ys)).data
            rw [data_append, data_append]
            exact h1.trans (List.suffix_append _ _).isInfix

theorem mapM_ok_mem {α β ε : Type} (f : α → Except ε β) :
    ∀ (l : List α) (res : List β), l.mapM f = .ok res →
      ∀ a ∈ l, ∃ b ∈ res, f a = .ok b := by
  intro l
  induction l with
  | nil => intro res _ a ha; simp at ha
  | cons x xs ih =>
      intro res h a ha
      rw [List.mapM_cons] at h
      cases hfx : f x with
      | error e => rw [hfx] at h; simp [Except.bind, bind, pure, Except.pure] at h
      | ok b =>
          rw [hfx] at h
          cases hxs : xs.mapM f with
          | error e => rw [hxs] at h; simp [Except.bind, bind, pure, Except.pure] at h
          | ok bs =>
              rw [hxs] at h
              simp only [Except.bind, bind, pure, Except.pure, Except.ok.injEq] at h
              subst h
              rcases List.mem_cons.mp ha with rfl | ha
              · exact ⟨b, List.mem_cons_self _ _, hfx⟩
              · obtain ⟨b2, hb2, hfb2⟩ := ih bs hxs a ha
                exact ⟨b2, List.mem_cons_of_mem _ hb2, hfb2⟩

theorem formatInterval_data_ne_nil (n : Nat) (d : SqlDialect) :
    (formatInterval n d).data ≠ [] := by
  cases d <;> simp [formatInterval, data_append]

/-- The rendered form of an interval condition with a ColumnRef lhs. -/
theorem renderCond_interval (d : SqlDialect) (lc : ColumnRef) (op : String)
    (e : Option String) (n : Nat) :
    renderCond d { lhs := .col lc, op := op, rhs := .exprInterval e (some n) }
      = .ok (q lc.table d ++ "." ++ q lc.column d ++ " " ++ op ++ " " ++ formatInterval n d) := by
  unfold renderCond
  cases e <;> rfl

/-- Successful rendering of any condition with an intervalDays rhs contains
the dialect interval string. -/
theorem renderCond_interval_infix (d : SqlDialect) (c : Condition) (b : String)
    (e : Option String) (n : Nat) (hrhs : c.rhs = .exprInterval e (some n))
    (hok : renderCond d c = .ok b) :
    (formatInterval n d).data <:+: b.data := by
  unfold renderCond at hok
  cases hl : c.lhs with
  | col lc =>
      rw [hl, hrhs] at hok
      simp only [Except.ok.injEq] at hok
      subst hok
      rw [data_append]
      exact (List.suffix_append _ _).isInfix
  | val v => rw [hl] at hok; simp at hok
  | exprF s => rw [hl] at hok; simp at hok

theorem generateSQL_interval_infix (ir : SelectQueryIR) (d : SqlDialect) (s : String)
    (ws : List Condition) (c : Condition) (e : Option String) (n : Nat)
    (hws : ir.whereC = some ws) (hc : c ∈ ws) (hrhs : c.rhs = .exprInterval e (some n))
    (hgen : generateSQL ir d = .ok s) :
    (formatInterval n d).data <:+: s.data := by
  unfold generateSQL at hgen
  rw [hws] at hgen
  simp only [Option.getD_some] at hgen
  cases hmp : ws.mapM (renderCond d) with
  | error err =>
      rw [hmp] at hgen
      simp [Except.bind, bind] at hgen
  | ok parts =>
      rw [hmp] at hgen
      simp only [Except.bind, bind, pure, Except.pure, Except.ok.injEq] at hgen
      obtain ⟨b, hbmem, hbok⟩ := mapM_ok_mem (renderCond d) ws parts hmp c hc
      have h1 : (formatInterval n d).data <:+: b.data :=
        renderCond_interval_infix d c b e n hrhs hbok
      have h2 : b.data <:+: (jsJoin " AND " parts).data := jsJoin_mem_infix _ parts b hbmem
      have hne : jsJoin " AND " parts ≠ "" := by
        intro hz
        have := (h1.trans h2).length_le
        rw [hz] at this
        simp only [String.data] at this
        have hfne := formatInterval_data_ne_nil n d
        cases hfd : (formatInterval n d).data with
        | nil => exact hfne hfd
        | cons a as => rw [hfd] at this; simp at this
      have hwline : ("WHERE " ++ jsJoin " AND " parts) ∈
          ([ "SELECT " ++ jsJoin ", " (ir.columns.map (emitColumn · d)),
             "FROM " ++ q ir.fromT d,
             jsJoin " " ((ir.joins.getD []).map (renderJoinItem ir.fromT d)),
             if jsJoin " AND " parts ≠ "" then "WHERE " ++ jsJoin " AND " parts else "",
             if jsJoin ", " ((ir.groupBy.getD []).map
                 (fun g => q g.table d ++ "." ++ q g.column d)) ≠ "" then
               "GROUP BY " ++ jsJoin ", " ((ir.groupBy.getD []).map
                 (fun g => q g.table d ++ "." ++ q g.column d))
             else "",
             if jsJoin ", " ((ir.orderBy.getD []).map (renderOrderItem d)) ≠ "" then
               "ORDER BY " ++ jsJoin ", " ((ir.orderBy.getD []).map (renderOrderItem d))
             else "",
             limitClause ir.limit ].filter (fun s => s ≠ "")) := by
        apply List.mem_filter.mpr
        constructor
        · rw [if_pos hne]
          simp
        · simp only [decide_eq_true_eq]
          intro hz
          have hdc := congrArg String.data hz
          rw [data_append] at hdc
          simp at hdc
      subst hgen
      have h3 : (jsJoin " AND " parts).data
          <:+: ("WHERE " ++ jsJoin " AND " parts).data := by
        rw [data_append]
        exact (List.suffix_append _ _).isInfix
      have h4 := jsJoin_mem_infix "\n" _ _ hwline
      exact ((h1.trans h2).trans h3).trans h4

theorem whereStage_interval_filter (text : String) (schema : SchemaInfo) (base : String)
    (ds : List Char) (hLast : lastDaysMatch text = some ds)
    (hdc : jsTruthy (filterDateColumn schema base) = true) :
    (whereStage text schema base).filter hasIntervalDays
      = [{ lhs := .col (ref base ((filterDateColumn schema base).getD "")), op := ">=",
           rhs := .exprInterval (some ("DATE('now', '-" ++ String.mk ds ++ " days')"))
             (some (digitsToNat ds)) }]
    ∧ whereStage text schema base ≠ [] := by
  unfold whereStage
  rw [hLast]
  simp only [hdc, if_true]
  constructor
  · cases htj : testJune text <;> cases htc : testCompleted text <;>
      cases hcs : columnExists schema base "status" <;>
      simp [htj, htc, hcs, hasIntervalDays]
  · simp

/-- C6: the three dialect renderings of a relative-date rhs, the fact that
any successfully generated SQL for an IR whose where list holds an
intervalDays condition contains the dialect interval string, and the
heuristic builder half: whenever parseIntentToIR succeeds on a text whose
lowering matches `last N days` and a date column is found for the final
base (or orders) table, the where list holds exactly one intervalDays
condition and its intervalDays is N. -/
theorem formatInterval_renders_and_builder_emits :
    (∀ n : Nat,
       formatInterval n SqlDialect.postgres
         = "CURRENT_DATE - INTERVAL '" ++ toString n ++ " days'"
       ∧ formatInterval n SqlDialect.mysql
         = "DATE_SUB(CURDATE(), INTERVAL " ++ toString n ++ " DAY)"
       ∧ formatInterval n SqlDialect.sqlite
         = "DATE('now', '-" ++ toString n ++ " days')")
    ∧ (∀ (ir : SelectQueryIR) (d : SqlDialect) (s : String) (ws : List Condition)
         (c : Condition) (e : Option String) (n : Nat),
         ir.whereC = some ws → c ∈ ws → c.rhs = .exprInterval e (some n) →
         generateSQL ir d = .ok s →
         (formatInterval n d).data <:+: s.data)
    ∧ (∀ (prompt : String) (schema : SchemaInfo) (opts : ParseOptions)
         (ir : SelectQueryIR) (ds : List Char),
         parseIntentToIR prompt schema opts = .ok ir →
         lastDaysMatch (jsToLower prompt) = some ds →
         jsTruthy (filterDateColumn schema ir.fromT) = true →
         (ir.whereC.getD []).filter hasIntervalDays
           = [{ lhs := .col (ref ir.fromT ((filterDateColumn schema ir.fromT).getD "")),
                op := ">=",
                rhs := .exprInterval (some ("DATE('now', '-" ++ String.mk ds ++ " days')"))
                  (some (digitsToNat ds)) }]) := by
  refine ⟨fun n => ⟨rfl, rfl, rfl⟩, generateSQL_interval_infix, ?_⟩
  intro prompt schema opts ir ds hok hLast hdc
  unfold parseIntentToIR at hok
  by_cases hb : jsTruthy (inferBase (jsToLower prompt) schema opts) = true
  case neg =>
      rw [if_neg hb] at hok
      simp at hok
  rw [if_pos hb] at hok
  dsimp only at hok
  obtain ⟨joins, base, hJS⟩ :
      ∃ a b, joinsStage (jsToLower prompt) schema
        (aggIntent (jsToLower prompt) schema
          ((inferBase (jsToLower prompt) schema opts).getD ""))
        (groupByIntent (jsToLower prompt) schema
          ((inferBase (jsToLower prompt) schema opts).getD ""))
        ((inferBase (jsToLower prompt) schema opts).getD "") = (a, b) := ⟨_, _, rfl⟩
  rw [hJS] at hok
  simp only [Except.ok.injEq] at hok
  subst hok
  simp only at hdc ⊢
  obtain ⟨hfilter, hne⟩ := whereStage_interval_filter (jsToLower prompt) schema base ds hLast hdc
  rw [if_pos hne]
  simpa using hfilter

/-- The concrete schema, IR and SQL of the C6 witness. -/
def c6Schema : SchemaInfo :=
  ⟨[⟨"orders", [⟨"id", none, true⟩, ⟨"order_date", some "DATE", false⟩]⟩]⟩

/-- The interval condition the builder emits for "orders in the last 30
days" over `c6Schema`. -/
def c6Cond : Condition :=
  { lhs := .col (ref "orders" "order_date"), op := ">=",
    rhs := .exprInterval (some "DATE('now', '-30 days')") (some 30) }

/-- The IR the builder returns for "orders in the last 30 days". -/
def c6IR : SelectQueryIR :=
  { fromT := "orders", columns := [SelectCol.colC (ref "orders" "*")],
    whereC := some [c6Cond] }

/-- C6 witness: all three components applied at concrete inputs — the
sqlite and postgres renders of 30 days, the substring containment in the
concretely generated SQL, and the builder's single interval condition for
the scenario text. -/
theorem formatInterval_renders_and_builder_emits_witness :
    formatInterval 30 SqlDialect.sqlite = "DATE('now', '-30 days')"
    ∧ (formatInterval 30 SqlDialect.sqlite).data
        <:+: ("SELECT \"orders\".*\nFROM \"orders\"\nWHERE \"orders\".\"order_date\" >= DATE('now', '-30 days')").data
    ∧ (c6IR.whereC.getD []).filter hasIntervalDays
        = [{ lhs := .col (ref c6IR.fromT ((filterDateColumn c6Schema c6IR.fromT).getD "")),
             op := ">=",
             rhs := .exprInterval (some ("DATE('now', '-" ++ String.mk ['3', '0'] ++ " days')"))
               (some (digitsToNat ['3', '0'])) }] := by
  refine ⟨(formatInterval_renders_and_builder_emits.1 30).2.2, ?_, ?_⟩
  · exact formatInterval_renders_and_builder_emits.2.1 c6IR SqlDialect.sqlite
      _ [c6Cond] c6Cond (some "DATE('now', '-30 days')") 30 rfl (by decide) rfl (by decide)
  · exact formatInterval_renders_and_builder_emits.2.2
      "orders in the last 30 days" c6Schema {} c6IR ['3', '0']
      (by decide) (by decide) (by decide)

/-! Claims C4 and C5 about the entity recognizer. -/

theorem findSome?_eq_some_inv {α β : Type} (f : α → Option β) :
    ∀ (l : List α) (b : β), l.findSome? f = some b → ∃ a ∈ l, f a = some b := by
  intro l
  induction l with
  | nil => intro b h; simp [List.findSome?] at h
  | cons x xs ih =>
      intro b h
      rw [List.findSome?_cons] at h
      cases hfx : f x with
      | some b2 =>
          rw [hfx] at h
          exact ⟨x, List.mem_cons_self _ _, hfx.trans h⟩
      | none =>
          rw [hfx] at h
          obtain ⟨a, ha, hfa⟩ := ih b h
          exact ⟨a, List.mem_cons_of_mem _ ha, hfa⟩

theorem directMatch_conf (schema : RSchema) (token : Token) (e : Entity)
    (h : directMatch schema token = some e) : 7/10 ≤ e.confidence := by
  unfold directMatch at h
  split at h
  · rename_i e1 heq
    simp only [Option.some.injEq] at h
    subst h
    obtain ⟨table, _, hft⟩ := findSome?_eq_some_inv _ schema.tables e1 heq
    by_cases hm : matchesName schema token.normalized table.name = true
    · rw [if_pos hm] at hft
      simp only [Option.some.injEq] at hft
      subst hft
      norm_num
    · rw [if_neg hm] at hft
      obtain ⟨column, _, hfc⟩ := findSome?_eq_some_inv _ table.columns e1 hft
      by_cases hm2 : matchesName schema token.normalized column.name = true
      · rw [if_pos hm2] at hfc
        simp only [Option.some.injEq] at hfc
        subst hfc
        norm_num
      · rw [if_neg hm2] at hfc
        simp at hfc
  · obtain ⟨func, _, hff⟩ := findSome?_eq_some_inv _ schema.functions e h
    by_cases hm : matchesName schema token.normalized func.name = true
    · rw [if_pos hm] at hff
      simp only [Option.some.injEq] at hff
      subst hff
      norm_num
    · rw [if_neg hm] at hff
      simp at hff

theorem contextualResolve_conf (schema : RSchema) (token : Token) (allTokens : List Token)
    (index : Nat) (ctx : RecContext) (e : Entity)
    (h : contextualResolve schema token allTokens index ctx = some e) :
    7/10 ≤ e.confidence := by
  unfold contextualResolve at h
  generalize hprev : (if index > 0 then allTokens[index - 1]? else none) = prev at h
  generalize hnext : allTokens[index + 1]? = next at h
  generalize hft : findBestTableMatch schema token.normalized ctx = ft at h
  generalize hfc : findBestColumnMatch schema token.normalized = fc at h
  cases prev <;> cases next <;> cases ft <;> cases fc <;>
    repeat' (first | (dsimp only at h) | split at h)
  all_goals try (simp_all; done)
  all_goals try (simp only [Option.some.injEq] at h; subst h; norm_num; done)
  all_goals (rename_i heq; split at heq <;> (try subst heq) <;> (try simp_all))
  all_goals (subst heq; norm_num)

theorem recognizeByType_conf (token : Token) (e : Entity)
    (h : recognizeByType token = some e) : 7/10 ≤ e.confidence := by
  unfold recognizeByType at h
  split at h <;>
    first
      | (subst h; norm_num)
      | (simp only [Option.some.injEq] at h; subst h; norm_num; done)
      | (simp at h; done)

theorem recognizeEntity_conf (schema : RSchema) (token : Token) (allTokens : List Token)
    (index : Nat) (ctx : RecContext) (e : Entity)
    (h : recognizeEntity schema token allTokens index ctx = some e) :
    7/10 ≤ e.confidence := by
  unfold recognizeEntity at h
  cases hdm : directMatch schema token with
  | some e1 =>
      rw [hdm] at h
      simp only [Option.some.injEq] at h
      subst h
      exact directMatch_conf schema token e1 hdm
  | none =>
      rw [hdm] at h
      have hfb : (match contextualResolve schema token allTokens index ctx with
          | some e2 => some e2
          | none => recognizeByType token) = some e → 7/10 ≤ e.confidence := by
        intro hfall
        cases hcr : contextualResolve schema token allTokens index ctx with
        | some e2 =>
            rw [hcr] at hfall
            simp only [Option.some.injEq] at hfall
            subst hfall
            exact contextualResolve_conf schema token allTokens index ctx e2 hcr
        | none =>
            rw [hcr] at hfall
            exact recognizeByType_conf token e hfall
      dsimp only at h
      cases hfz : fuzzyBest schema token.normalized with
      | some fm =>
          rw [hfz] at h
          dsimp only at h
          split at h
          · rename_i hscore
            simp only [Option.some.injEq] at h
            subst h
            have hs : (7:ℚ)/10 < fm.score := by simpa using hscore
            simpa only [createEntity] using le_of_lt hs
          · exact hfb h
      | none =>
          rw [hfz] at h
          dsimp only at h
          exact hfb h

theorem resolveAmbiguity_conf (schema : RSchema) (ctx : RecContext) (e : Entity)
    (hinv : 7/10 ≤ e.confidence) :
    3/10 < (resolveAmbiguity schema ctx e).confidence := by
  unfold resolveAmbiguity
  have hgt : (3:ℚ)/10 < e.confidence := lt_of_lt_of_le (by norm_num) hinv
  split
  · dsimp only
    split
    · exact hgt
    · dsimp only
      apply lt_min
      · nlinarith
      · norm_num
    · split
      · dsimp only
        apply lt_min
        · nlinarith
        · norm_num
      · dsimp only
        nlinarith
  · exact hgt

/-- A concrete run for the C4 witness: an empty schema and one string
literal token. -/
def c4Schema : RSchema := { tables := [], functions := [] }

def c4Token : Token :=
  { text := "x", type := .STRING_LITERAL, position := 0, length := 1,
    normalized := "x", confidence := 1 }

def c4Entity : Entity :=
  { text := "x", type := .TEXT, confidence := 9/10, position := 0, length := 1,
    resolvedName := some "x" }

theorem c4_mem : c4Entity ∈ recognize c4Schema [c4Token] := by
  unfold recognize
  dsimp only
  rw [show ([c4Token].enum) = [(0, c4Token)] from rfl, List.filterMap_cons]
  dsimp only
  rw [show recognizeEntity c4Schema c4Token [c4Token] 0 (buildContext [c4Token])
        = some c4Entity from rfl]
  dsimp only
  have hc : c4Entity.confidence > 3/10 := by norm_num [c4Entity]
  rw [if_pos hc]
  dsimp only [List.filterMap_nil]
  simp only [resolveAmbiguities, List.map]
  have hb : (c4Entity.type == EntityType.COLUMN
      && !(metaTableTruthy c4Entity.metadata.table)) = false := rfl
  simp only [resolveAmbiguity, hb, Bool.false_eq_true, if_false, List.mem_singleton]

/-- C4: every entity returned by `recognize` has confidence strictly above
0.3 — the per-token 0.3 filter runs before the ambiguity pass, but every
recognized entity enters that pass with confidence at least 0.7, so even
the 30% ambiguity cut cannot push a surviving entity to 0.3 or below. -/
theorem recognize_confidence_above_threshold (schema : RSchema) (tokens : List Token)
    (e : Entity) (he : e ∈ recognize schema tokens) : 3/10 < e.confidence := by
  unfold recognize at he
  simp only [resolveAmbiguities, List.mem_map] at he
  obtain ⟨e0, he0, rfl⟩ := he
  simp only [List.mem_filterMap] at he0
  obtain ⟨p, _, hp⟩ := he0
  cases hre : recognizeEntity schema p.2 tokens p.1 (buildContext tokens) with
  | none => rw [hre] at hp; simp at hp
  | some e1 =>
      rw [hre] at hp
      dsimp only at hp
      by_cases hc : e1.confidence > 3/10
      · rw [if_pos hc] at hp
        simp only [Option.some.injEq] at hp
        subst hp
        exact resolveAmbiguity_conf schema (buildContext tokens) e1
          (recognizeEntity_conf schema p.2 tokens p.1 (buildContext tokens) e1 hre)
      · rw [if_neg hc] at hp
        simp at hp

/-- Concrete data for the C5 witness: two tables both carrying a column
named `x`, an un-owned COLUMN entity over an empty context. -/
def c5T1 : RTable := { name := "a", columns := [{ name := "x", type := "TEXT" }] }

def c5T2 : RTable := { name := "b", columns := [{ name := "x", type := "TEXT" }] }

def c5Schema : RSchema := { tables := [c5T1, c5T2], functions := [] }

def c5Ctx : RecContext :=
  { tables := [], columns := [], functions := [], hasAggregation := false,
    hasGroupBy := false, hasJoin := false, hasWhere := false }

def c5Entity : Entity :=
  { text := "x", type := .COLUMN, confidence := 3/4, position := 0, length := 1,
    resolvedName := some "x" }

/-- C5: a COLUMN entity with no owning table whose name matches columns of
more than one schema table binds to a context table when one of the
candidates is already referenced there (confidence boosted by 5% capped at
1), and otherwise is returned with metadata.ambiguous = true and confidence
exactly 0.7 times its pre-ambiguity value, with the candidate table names
recorded. -/
theorem resolveAmbiguity_multi_candidates (schema : RSchema) (ctx : RecContext)
    (e : Entity) (t1 t2 : RTable) (rest : List RTable)
    (htype : (e.type == EntityType.COLUMN && !(metaTableTruthy e.metadata.table)) = true)
    (hpt : findTablesWithColumn schema ((jsOrStr e.resolvedName (some e.text)).getD "")
      = t1 :: t2 :: rest) :
    (∀ tctx, ctx.tables.find? (fun t => (t1 :: t2 :: rest).any
          (fun pt => jsToLower pt.name == jsToLower t)) = some tctx →
        resolveAmbiguity schema ctx e
          = { e with confidence := min (e.confidence * (21/20)) 1,
                     metadata := { e.metadata with table := some (.str tctx) } })
    ∧ (ctx.tables.find? (fun t => (t1 :: t2 :: rest).any
          (fun pt => jsToLower pt.name == jsToLower t)) = none →
        (resolveAmbiguity schema ctx e).metadata.ambiguous = true
        ∧ (resolveAmbiguity schema ctx e).confidence = e.confidence * (7/10)
        ∧ (resolveAmbiguity schema ctx e).metadata.possibleTables
            = (t1 :: t2 :: rest).map (fun t => t.name)) := by
  constructor
  · intro tctx hfind
    unfold resolveAmbiguity
    rw [if_pos htype]
    dsimp only
    rw [hpt]
    dsimp only
    rw [hfind]
  · intro hfind
    unfold resolveAmbiguity
    rw [if_pos htype]
    dsimp only
    rw [hpt]
    dsimp only
    rw [hfind]
    exact ⟨rfl, rfl, rfl⟩

theorem resolveAmbiguity_multi_candidates_witness :
    (resolveAmbiguity c5Schema c5Ctx c5Entity).metadata.ambiguous = true
    ∧ (resolveAmbiguity c5Schema c5Ctx c5Entity).confidence
        = c5Entity.confidence * (7/10)
    ∧ (resolveAmbiguity c5Schema c5Ctx c5Entity).metadata.possibleTables
        = [c5T1, c5T2].map (fun t => t.name) :=
  (resolveAmbiguity_multi_candidates c5Schema c5Ctx c5Entity c5T1 c5T2 []
      (by decide) (by decide)).2 rfl

theorem recognize_confidence_above_threshold_witness :
    3/10 < c4Entity.confidence :=
  recognize_confidence_above_threshold c4Schema [c4Token] c4Entity c4_mem

end NL2SQL
